import Mathlib

/-!
Verification of the mindmap-ui repository core: the radial layout engine
(`src/utils/mindmapConverter.ts`), the tree mutation helpers and the
interaction controller transitions (`src/types/mindmap.ts`).

The data model is a shallow embedding of the `MindmapNode` interface; the
optional `children` array is modelled as a (possibly empty) list, which is
observationally identical to the source (every use site guards with
`node.children && node.children.length > 0` or iterates the array).
Machine floats are modelled as real numbers.
-/

namespace MindmapUI

/-- The `metadata` object of a `MindmapNode` (known keys only; no claim
depends on the open-ended extra keys). -/
structure Metadata where
  inputs : Option (List String) := none
  outputs : Option (List String) := none
  notes : Option String := none
  tags : Option (List String) := none
  deriving DecidableEq, Repr

mutual

/-- `MindmapNode` from src/types/mindmap.ts: id, label, summary, description,
optional metadata, children. -/
inductive MindmapNode : Type where
  | mk (id label summary description : String)
       (metadata : Option Metadata) (children : NodeList)

/-- An ordered sequence of child nodes (the `children` array). -/
inductive NodeList : Type where
  | nil
  | cons (head : MindmapNode) (tail : NodeList)

end

deriving instance DecidableEq for MindmapNode

def MindmapNode.id : MindmapNode → String
  | .mk i _ _ _ _ _ => i

def MindmapNode.label : MindmapNode → String
  | .mk _ l _ _ _ _ => l

def MindmapNode.summary : MindmapNode → String
  | .mk _ _ s _ _ _ => s

def MindmapNode.description : MindmapNode → String
  | .mk _ _ _ d _ _ => d

def MindmapNode.metadata : MindmapNode → Option Metadata
  | .mk _ _ _ _ m _ => m

def MindmapNode.children : MindmapNode → NodeList
  | .mk _ _ _ _ _ cs => cs

def NodeList.toList : NodeList → List MindmapNode
  | .nil => []
  | .cons h t => h :: t.toList

def NodeList.length : NodeList → Nat
  | .nil => 0
  | .cons _ t => t.length + 1

/-- Ids of the direct members of a child list. -/
def NodeList.headIds : NodeList → List String
  | .nil => []
  | .cons h t => h.id :: t.headIds

mutual

/-- All ids of the subtree rooted at a node, in depth-first document order. -/
def MindmapNode.ids : MindmapNode → List String
  | .mk i _ _ _ _ cs => i :: cs.idsList

def NodeList.idsList : NodeList → List String
  | .nil => []
  | .cons h t => h.ids ++ t.idsList

end

mutual

/-- All nodes of the subtree rooted at a node (the node itself included),
in depth-first document order. -/
def MindmapNode.subnodes : MindmapNode → List MindmapNode
  | .mk i l s d m cs => .mk i l s d m cs :: cs.subnodesList

def NodeList.subnodesList : NodeList → List MindmapNode
  | .nil => []
  | .cons h t => h.subnodes ++ t.subnodesList

end

/-- The document invariant: no two nodes of the tree share an id. -/
def uniqueIds (n : MindmapNode) : Prop := n.ids.Nodup

instance (n : MindmapNode) : Decidable (uniqueIds n) := by
  unfold uniqueIds; infer_instance

mutual

/-- `findNode` from src/types/mindmap.ts: depth-first search, the node
itself first, then the children in order; first match wins. -/
def findNode (nodeId : String) : MindmapNode → Option MindmapNode
  | .mk i l s d m cs =>
    if i = nodeId then some (.mk i l s d m cs) else findNodeList nodeId cs

def findNodeList (nodeId : String) : NodeList → Option MindmapNode
  | .nil => none
  | .cons h t =>
    match findNode nodeId h with
    | some found => some found
    | none => findNodeList nodeId t

end

/-- A `Partial<MindmapNode>` as used by `updateNodeInTree`: each field is
either absent or supplies a replacement value.  The `id` field is never
supplied by the application and is omitted. -/
structure NodeUpdate where
  label : Option String := none
  summary : Option String := none
  description : Option String := none
  metadata : Option (Option Metadata) := none
  children : Option NodeList := none

/-- The spread `{ ...node, ...updates }`: supplied fields replace, all
others retain their prior value. -/
def mergeNode (n : MindmapNode) (u : NodeUpdate) : MindmapNode :=
  match n with
  | .mk i l s d m cs =>
    .mk i (u.label.getD l) (u.summary.getD s) (u.description.getD d)
      (u.metadata.getD m) (u.children.getD cs)

mutual

/-- `updateNodeInTree` from src/types/mindmap.ts: on an id match the updates
are spread into the node (no recursion below the match); otherwise the
children are mapped recursively. -/
def updateNodeInTree (nodeId : String) (u : NodeUpdate) :
    MindmapNode → MindmapNode
  | .mk i l s d m cs =>
    if i = nodeId then mergeNode (.mk i l s d m cs) u
    else .mk i l s d m (updateNodeList nodeId u cs)

def updateNodeList (nodeId : String) (u : NodeUpdate) : NodeList → NodeList
  | .nil => .nil
  | .cons h t => .cons (updateNodeInTree nodeId u h) (updateNodeList nodeId u t)

end

mutual

/-- `deleteNodeFromTree` from `handleDeleteNode` in src/types/mindmap.ts:
a matching node is marked for deletion (`null`); otherwise the children are
mapped and the `null` results filtered out. -/
def deleteNodeFromTree : MindmapNode → String → Option MindmapNode
  | .mk i l s d m cs, targetId =>
    if i = targetId then none
    else some (.mk i l s d m (deleteNodeListFromTree cs targetId))

def deleteNodeListFromTree : NodeList → String → NodeList
  | .nil, _ => .nil
  | .cons h t, targetId =>
    match deleteNodeFromTree h targetId with
    | none => deleteNodeListFromTree t targetId
    | some h2 => .cons h2 (deleteNodeListFromTree t targetId)

end

mutual

/-- `findParent` from `onNodeClick` in src/types/mindmap.ts: returns the
most recent ancestor when the target is found, `null` for the root or an
unmatched id (a `null` recursive result is treated as not-found and the
scan continues). -/
def findParent (current : MindmapNode) (targetId : String)
    (parent : Option MindmapNode) : Option MindmapNode :=
  match current with
  | .mk i l s d m cs =>
    if i = targetId then parent
    else findParentList cs targetId (.mk i l s d m cs)

def findParentList (l : NodeList) (targetId : String)
    (currentNode : MindmapNode) : Option MindmapNode :=
  match l with
  | .nil => none
  | .cons h t =>
    match findParent h targetId (some currentNode) with
    | some found => some found
    | none => findParentList t targetId currentNode

end

/-- JavaScript `String.prototype.trim`: strip leading and trailing
whitespace. -/
def jsTrim (s : String) : String :=
  ⟨(((s.toList.dropWhile Char.isWhitespace).reverse).dropWhile
      Char.isWhitespace).reverse⟩

/-- JavaScript `String.prototype.toLowerCase` (per-character case
folding). -/
def jsToLower (s : String) : String := ⟨s.toList.map Char.toLower⟩

/-- JavaScript `haystack.includes(needle)`: substring containment. -/
def strIncludes (s sub : String) : Bool := decide (sub.toList <:+: s.toList)

/-- The match predicate of `searchNodes`: label, summary, description, or
any metadata tag contains the (already lowercased) query, case-insensitively. -/
def nodeMatchesQuery (searchLower : String) (n : MindmapNode) : Bool :=
  strIncludes (jsToLower n.label) searchLower ||
  strIncludes (jsToLower n.summary) searchLower ||
  strIncludes (jsToLower n.description) searchLower ||
  (match n.metadata with
   | some m =>
     match m.tags with
     | some ts => ts.any fun tag => strIncludes (jsToLower tag) searchLower
     | none => false
   | none => false)

mutual

/-- The `searchInNode` recursion of `searchNodes`: collect matching ids in
depth-first order. -/
def searchInNode (searchLower : String) : MindmapNode → List String
  | .mk i l s d m cs =>
    (if nodeMatchesQuery searchLower (.mk i l s d m cs) then [i] else []) ++
      searchInNodeList searchLower cs

def searchInNodeList (searchLower : String) : NodeList → List String
  | .nil => []
  | .cons h t => searchInNode searchLower h ++ searchInNodeList searchLower t

end

/-- `searchNodes` from src/types/mindmap.ts: empty result for a blank
query, otherwise a depth-first scan with the lowercased query. -/
def searchNodes (root : MindmapNode) (query : String) : List String :=
  if jsTrim query = "" then [] else searchInNode (jsToLower query) root

/-! ## Layout engine (src/utils/mindmapConverter.ts) -/

def BASE_RADIUS : ℝ := 250

def LEVEL_SCALE : ℝ := 0.85

def MIN_SPACING : ℝ := 180

noncomputable def MAX_ANGLE_SPAN : ℝ := Real.pi * 1.6

/-- The `angleSpan` of the level-greater-equal-2 fan:
`min(MAX_ANGLE_SPAN, siblingCount * (MIN_SPACING / radius))`. -/
noncomputable def fanSpan (siblingCount : ℕ) (radius : ℝ) : ℝ :=
  min MAX_ANGLE_SPAN ((siblingCount : ℝ) * (MIN_SPACING / radius))

/-- One node pushed by `calculatePositions`.  `x`, `y` and `id` are the data
actually pushed; the remaining fields record the values of the local
variables and parameters of the source at the moment of the push (`angle`,
`radius`, `level`, `index`, `siblingCount`, `parentAngle`, `parentX`/`px`,
`parentY`/`py`, `parentId`, and the node's own child count), so that the
spec's statements about them can be expressed.  The source leaves `angle`
and `radius` undefined for the root (level 0); we record 0 for both. -/
structure LayoutEntry where
  id : String
  x : ℝ
  y : ℝ
  level : ℕ
  index : ℕ
  siblingCount : ℕ
  childCount : ℕ
  angle : ℝ
  radius : ℝ
  parentAngle : ℝ
  px : ℝ
  py : ℝ
  parentId : Option String

/-- One edge pushed by `calculatePositions`. -/
structure FlowEdge where
  eid : String
  source : String
  target : String
  deriving DecidableEq, Repr

/-- The position block of `calculatePositions`: the root sits at the
origin with angle 0; deeper nodes get
`radius = BASE_RADIUS * LEVEL_SCALE^(level-1)`, a full-circle angle at
level 1, a fan angle at level greater-equal 2 (the single child inherits
the parent angle), and polar coordinates relative to the parent. -/
noncomputable def layoutEntry (nid : String) (childCount : ℕ)
    (level index : ℕ) (parentX parentY : ℝ) (siblingCount : ℕ)
    (parentAngle : ℝ) (parentId : Option String) : LayoutEntry :=
  if level = 0 then
    -- Root node at center
    { id := nid, x := 0, y := 0, angle := 0, radius := 0,
      level, index, siblingCount, childCount,
      parentAngle, px := parentX, py := parentY, parentId }
  else
    -- Radius based on level (deeper levels have smaller radius)
    let radius := BASE_RADIUS * LEVEL_SCALE ^ (level - 1)
    let angle :=
      if level = 1 then
        -- First level: distribute evenly in a full circle around root
        ((index : ℝ) / (siblingCount : ℝ)) * Real.pi * 2
      else
        -- Deeper levels: distribute children in a fan around parent
        let angleSpan := fanSpan siblingCount radius
        let startAngle := parentAngle - angleSpan / 2
        if siblingCount = 1 then parentAngle
        else startAngle + ((index : ℝ) / ((siblingCount : ℝ) - 1)) * angleSpan
    { id := nid, x := parentX + Real.cos angle * radius,
      y := parentY + Real.sin angle * radius, angle, radius,
      level, index, siblingCount, childCount,
      parentAngle, px := parentX, py := parentY, parentId }

/-- The `if (parentId) edges.push(...)` block of `calculatePositions`.
The guard is JavaScript-truthy: both `null` and the empty string suppress
the edge. -/
def edgeFromParent (parentId : Option String) (nid : String) :
    List FlowEdge :=
  match parentId with
  | some p =>
    if p = "" then []
    else [{ eid := "edge-" ++ p ++ "-" ++ nid, source := p, target := nid }]
  | none => []

mutual

/-- `calculatePositions` from src/utils/mindmapConverter.ts.  Returns the
node and edge lists in push order. -/
noncomputable def calculatePositions (collapsed : List String) :
    MindmapNode → ℕ → ℕ → ℝ → ℝ → ℕ → ℝ → Option String →
      List LayoutEntry × List FlowEdge
  | .mk nid _ _ _ _ cs, level, index, parentX, parentY, siblingCount,
      parentAngle, parentId =>
    let e : LayoutEntry :=
      layoutEntry nid cs.length level index parentX parentY siblingCount
        parentAngle parentId
    let edges0 : List FlowEdge := edgeFromParent parentId nid
    if 0 < cs.length ∧ nid ∉ collapsed then
      let r := calculatePositionsList collapsed cs (level + 1) 0 e.x e.y
        cs.length e.angle nid
      (e :: r.1, edges0 ++ r.2)
    else ([e], edges0)

/-- The `node.children.forEach` loop of `calculatePositions`, threading the
running child index. -/
noncomputable def calculatePositionsList (collapsed : List String) :
    NodeList → ℕ → ℕ → ℝ → ℝ → ℕ → ℝ → String →
      List LayoutEntry × List FlowEdge
  | .nil, _, _, _, _, _, _, _ => ([], [])
  | .cons h t, childLevel, childIndex, x, y, childCount, angle, pid =>
    let r1 := calculatePositions collapsed h childLevel childIndex x y
      childCount angle (some pid)
    let r2 := calculatePositionsList collapsed t childLevel (childIndex + 1)
      x y childCount angle pid
    (r1.1 ++ r2.1, r1.2 ++ r2.2)

end

/-- `convertMindmapToFlow`: run the layout from the root with the source's
default arguments. -/
noncomputable def convertMindmapToFlow (rootNode : MindmapNode)
    (collapsedNodes : List String) : List LayoutEntry × List FlowEdge :=
  calculatePositions collapsedNodes rootNode 0 0 0 0 1 0 none

mutual

/-- The ids visited by the layout traversal, in push order: a node is
always pushed; its children are traversed only when it has children and is
not collapsed. -/
def visibleIds (collapsed : List String) : MindmapNode → List String
  | .mk nid _ _ _ _ cs =>
    nid :: (if 0 < cs.length ∧ nid ∉ collapsed
            then visibleIdsList collapsed cs else [])

def visibleIdsList (collapsed : List String) : NodeList → List String
  | .nil => []
  | .cons h t => visibleIds collapsed h ++ visibleIdsList collapsed t

end

mutual

/-- The `(source, target)` pairs of the edges pushed by the layout
traversal, in push order. -/
def visibleEdges (collapsed : List String) (parentId : Option String) :
    MindmapNode → List (String × String)
  | .mk nid _ _ _ _ cs =>
    (match parentId with
     | some p => if p = "" then [] else [(p, nid)]
     | none => []) ++
    (if 0 < cs.length ∧ nid ∉ collapsed
     then visibleEdgesList collapsed nid cs else [])

def visibleEdgesList (collapsed : List String) (pid : String) :
    NodeList → List (String × String)
  | .nil => []
  | .cons h t =>
    visibleEdges collapsed (some pid) h ++ visibleEdgesList collapsed pid t

end

/-- The per-entry equations of the layout: radius, polar position, and
angle assignment, in terms of the entry's recorded parameters. -/
noncomputable def EntryInvariant (e : LayoutEntry) : Prop :=
  (e.level = 0 → e.x = 0 ∧ e.y = 0 ∧ e.angle = 0 ∧ e.radius = 0) ∧
  (1 ≤ e.level →
    e.radius = BASE_RADIUS * LEVEL_SCALE ^ (e.level - 1) ∧
    e.x = e.px + Real.cos e.angle * e.radius ∧
    e.y = e.py + Real.sin e.angle * e.radius ∧
    (e.level = 1 →
      e.angle = ((e.index : ℝ) / (e.siblingCount : ℝ)) * Real.pi * 2) ∧
    (2 ≤ e.level →
      (e.siblingCount = 1 → e.angle = e.parentAngle) ∧
      (e.siblingCount ≠ 1 →
        e.angle = (e.parentAngle - fanSpan e.siblingCount e.radius / 2) +
          ((e.index : ℝ) / ((e.siblingCount : ℝ) - 1)) *
            fanSpan e.siblingCount e.radius)))

/-- `Linked L e`: the entry list `L` contains the parent entry of `e`,
agreeing with the parameters recorded in `e`. -/
def Linked (L : List LayoutEntry) (e : LayoutEntry) : Prop :=
  ∃ pe ∈ L, some pe.id = e.parentId ∧ pe.angle = e.parentAngle ∧
    pe.x = e.px ∧ pe.y = e.py ∧ pe.childCount = e.siblingCount ∧
    e.level = pe.level + 1

/-! ## Interaction controller transitions (src/types/mindmap.ts) -/

/-- The ephemeral UI state owned by the `Mindmap` component (the fields
relevant to the claims). -/
structure AppState where
  mindmapRoot : MindmapNode
  collapsedNodes : Finset String
  selectedNodeId : Option String
  showSidePanel : Bool
  highlightedNodes : Finset String

/-- The `nodeData.children.forEach((child) => relatedNodes.add(child.id))`
loop of `onNodeClick`. -/
def insertChildIds : NodeList → Finset String → Finset String
  | .nil, s => s
  | .cons h t, s => insertChildIds t (insert h.id s)

/-- `onNodeClick` from src/types/mindmap.ts as a pure state transition:
toggle collapse when the node has children, select the node, open the side
panel, and highlight the node, its children and its parent. -/
def onNodeClickTrans (st : AppState) (node : MindmapNode) : AppState :=
  let collapsedNodes' :=
    if 0 < node.children.length then
      if node.id ∈ st.collapsedNodes then st.collapsedNodes.erase node.id
      else insert node.id st.collapsedNodes
    else st.collapsedNodes
  let wasAlreadySelected := st.selectedNodeId = some node.id
  let showSidePanel' :=
    if ¬wasAlreadySelected ∨ ¬st.showSidePanel then true else st.showSidePanel
  let relatedNodes :=
    let base := insertChildIds node.children {node.id}
    match findParent st.mindmapRoot node.id none with
    | some parent => insert parent.id base
    | none => base
  { st with
      collapsedNodes := collapsedNodes'
      selectedNodeId := some node.id
      showSidePanel := showSidePanel'
      highlightedNodes := relatedNodes }

/-- `handleDeleteNode` from src/types/mindmap.ts as a pure state
transition: reject root deletion, otherwise delete and clear selection,
panel and highlights. -/
def handleDeleteNode (st : AppState) (nodeId : String) : AppState :=
  if nodeId = st.mindmapRoot.id then st
  else
    match deleteNodeFromTree st.mindmapRoot nodeId with
    | some updatedRoot =>
      { st with
          mindmapRoot := updatedRoot
          selectedNodeId := none
          showSidePanel := false
          highlightedNodes := ∅ }
    | none => st

/-- The search-highlight `useEffect` of src/types/mindmap.ts as a function
from (tree, query, selection, current highlights) to the new highlight set.
The guards are JavaScript-truthy: `!searchQuery.trim()` is true for blank
queries, and `!selectedNodeId` is true both for `null` and for the empty
string id. -/
def searchHighlightSync (root : MindmapNode) (searchQuery : String)
    (selectedNodeId : Option String) (highlighted : Finset String) :
    Finset String :=
  if jsTrim searchQuery ≠ "" then (searchNodes root searchQuery).toFinset
  else if selectedNodeId = none ∨ selectedNodeId = some "" then ∅
  else highlighted

/-! ## Concrete documents used in scenario theorems, witnesses and
counterexamples -/

/-- A leaf node with the given id and empty text fields. -/
def leafNode (i : String) : MindmapNode := .mk i "" "" "" none .nil

/-- The spec scenario document:
`{root:{id:"r",label:"Root",children:[{id:"a"},{id:"b"},{id:"c"}]}}`. -/
def scenarioDoc : MindmapNode :=
  .mk "r" "Root" "" "" none
    (.cons (leafNode "a") (.cons (leafNode "b") (.cons (leafNode "c") .nil)))

/-- A three-level chain r with child a, a with child b. -/
def chainDoc : MindmapNode :=
  .mk "r" "" "" "" none
    (.cons (.mk "a" "" "" "" none (.cons (leafNode "b") .nil)) .nil)

/-- A document with a node carrying `tags:["library","ui"]`. -/
def libraryDoc : MindmapNode :=
  .mk "r" "Root" "" "" none
    (.cons (.mk "lib" "React" "" "" (some { tags := some ["library", "ui"] })
      .nil) .nil)

/-- A single-node document whose root label contains a space. -/
def spacedDoc : MindmapNode := .mk "r" "hello world" "" "" none .nil

/-- A document whose root id is the empty string, with one child. -/
def emptyIdDoc : MindmapNode := .mk "" "" "" "" none (.cons (leafNode "x") .nil)

/-- Local attributes of a node: everything except the child subtrees (the
children appear through their ids only). -/
def nodeAttrs (n : MindmapNode) :
    String × String × String × Option Metadata × List String :=
  (n.label, n.summary, n.description, n.metadata, n.children.headIds)

/-- Every id of the document is a non-empty string (so that no id is
JavaScript-falsy). -/
def nonEmptyIds (n : MindmapNode) : Prop := ∀ i ∈ n.ids, i ≠ ""

/-- `OccursVisible collapsed root X`: X lies in the tree and no strict
ancestor of X (on its occurrence path) is collapsed, i.e. the layout
traversal reaches X. -/
inductive OccursVisible (collapsed : List String) :
    MindmapNode → MindmapNode → Prop
  | refl (n : MindmapNode) : OccursVisible collapsed n n
  | step (n ch X : MindmapNode) : ch ∈ n.children.toList →
      n.id ∉ collapsed → OccursVisible collapsed ch X →
      OccursVisible collapsed n X

/-- Modelled from the spec's words, for comparison with the source's
`nodeMatchesQuery`: the node's label, summary, description, or any
metadata tag contains the query as a case-insensitive substring. -/
def specMatches (query : String) (m : MindmapNode) : Prop :=
  (jsToLower query).toList <:+: (jsToLower m.label).toList ∨
  (jsToLower query).toList <:+: (jsToLower m.summary).toList ∨
  (jsToLower query).toList <:+: (jsToLower m.description).toList ∨
  ∃ md ts, m.metadata = some md ∧ md.tags = some ts ∧
    ∃ tag ∈ ts, (jsToLower query).toList <:+: (jsToLower tag).toList

/-! ## Basic facts about the tree model -/

/-- Mutual structural induction for `MindmapNode`/`NodeList`. -/
theorem treeInd (P : MindmapNode → Prop) (Q : NodeList → Prop)
    (hmk : ∀ i l s d m cs, Q cs → P (MindmapNode.mk i l s d m cs))
    (hnil : Q NodeList.nil)
    (hcons : ∀ n t, P n → Q t → Q (NodeList.cons n t)) :
    (∀ n, P n) ∧ (∀ l, Q l) :=
  ⟨fun n => @MindmapNode.rec P Q hmk hnil hcons n,
   fun l => @NodeList.rec P Q hmk hnil hcons l⟩

theorem listInd (Q : NodeList → Prop) (hnil : Q .nil)
    (hcons : ∀ n t, Q t → Q (.cons n t)) : ∀ l, Q l :=
  (treeInd (fun _ => True) Q (fun _ _ _ _ _ _ _ => trivial) hnil
    (fun n t _ ht => hcons n t ht)).2

@[simp] theorem id_mk (i l s d m cs) : (MindmapNode.mk i l s d m cs).id = i := rfl

@[simp] theorem children_mk (i l s d m cs) :
    (MindmapNode.mk i l s d m cs).children = cs := rfl

@[simp] theorem ids_mk (i l s d m cs) :
    (MindmapNode.mk i l s d m cs).ids = i :: cs.idsList := rfl

@[simp] theorem idsList_nil : NodeList.nil.idsList = [] := rfl

@[simp] theorem idsList_cons (h t) :
    (NodeList.cons h t).idsList = h.ids ++ t.idsList := rfl

@[simp] theorem subnodes_mk (i l s d m cs) :
    (MindmapNode.mk i l s d m cs).subnodes =
      MindmapNode.mk i l s d m cs :: cs.subnodesList := rfl

@[simp] theorem subnodesList_nil : NodeList.nil.subnodesList = [] := rfl

@[simp] theorem subnodesList_cons (h t) :
    (NodeList.cons h t).subnodesList = h.subnodes ++ t.subnodesList := rfl

@[simp] theorem toList_nil : NodeList.nil.toList = [] := rfl

@[simp] theorem toList_cons (h t) :
    (NodeList.cons h t).toList = h :: t.toList := rfl

@[simp] theorem headIds_nil : NodeList.nil.headIds = [] := rfl

@[simp] theorem headIds_cons (h t) :
    (NodeList.cons h t).headIds = h.id :: t.headIds := rfl

@[simp] theorem length_nil : NodeList.nil.length = 0 := rfl

@[simp] theorem length_cons (h t) :
    (NodeList.cons h t).length = t.length + 1 := rfl

theorem id_mem_ids (n : MindmapNode) : n.id ∈ n.ids := by
  cases n; simp

theorem mem_subnodes_self (n : MindmapNode) : n ∈ n.subnodes := by
  cases n; simp

theorem subnode_ids_sublist :
    (∀ n : MindmapNode, ∀ m ∈ n.subnodes, m.ids.Sublist n.ids) ∧
      (∀ l : NodeList, ∀ m ∈ l.subnodesList, m.ids.Sublist l.idsList) := by
  refine treeInd _ _ ?_ ?_ ?_
  · intro i l s d m cs ih m' hm'
    rw [subnodes_mk, List.mem_cons] at hm'
    rcases hm' with rfl | hm'
    · exact List.Sublist.refl _
    · exact (ih m' hm').trans ((List.sublist_cons_self _ _))
  · intro m hm; simp at hm
  · intro n t ihn iht m hm
    rw [subnodesList_cons, List.mem_append] at hm
    rcases hm with hm | hm
    · exact (ihn m hm).trans (List.sublist_append_left _ _)
    · exact (iht m hm).trans (List.sublist_append_right _ _)

theorem ids_subset_of_subnode {n m : MindmapNode} (hm : m ∈ n.subnodes) :
    m.ids ⊆ n.ids :=
  (subnode_ids_sublist.1 n m hm).subset

theorem id_mem_of_subnode {n m : MindmapNode} (hm : m ∈ n.subnodes) :
    m.id ∈ n.ids :=
  ids_subset_of_subnode hm (id_mem_ids m)

theorem uniqueIds_of_subnode {n m : MindmapNode} (hu : uniqueIds n)
    (hm : m ∈ n.subnodes) : uniqueIds m :=
  (subnode_ids_sublist.1 n m hm).nodup hu

theorem ids_subset_of_mem_toList :
    ∀ l : NodeList, ∀ c ∈ l.toList, c.ids ⊆ l.idsList := by
  refine listInd _ ?_ ?_
  · intro c hc; simp at hc
  · intro n t ih c hc
    rw [toList_cons, List.mem_cons] at hc
    rcases hc with rfl | hc
    · intro a ha; exact List.mem_append_left _ ha
    · intro a ha; exact List.mem_append_right _ (ih c hc ha)

theorem mem_subnodesList_iff :
    ∀ l : NodeList, ∀ m : MindmapNode,
      m ∈ l.subnodesList ↔ ∃ c ∈ l.toList, m ∈ c.subnodes := by
  refine listInd _ ?_ ?_
  · intro m; simp
  · intro n t ih m
    rw [subnodesList_cons, List.mem_append, ih]
    simp only [toList_cons, List.mem_cons]
    constructor
    · rintro (hm | ⟨c, hc, hm⟩)
      · exact ⟨n, Or.inl rfl, hm⟩
      · exact ⟨c, Or.inr hc, hm⟩
    · rintro ⟨c, rfl | hc, hm⟩
      · exact Or.inl hm
      · exact Or.inr ⟨c, hc, hm⟩

theorem subnodes_trans :
    (∀ n : MindmapNode, ∀ k ∈ n.subnodes, ∀ m ∈ k.subnodes, m ∈ n.subnodes) ∧
      (∀ l : NodeList, ∀ k ∈ l.subnodesList, ∀ m ∈ k.subnodes,
        m ∈ l.subnodesList) := by
  refine treeInd _ _ ?_ ?_ ?_
  · intro i l s d m cs ih k hk m' hm'
    rw [subnodes_mk, List.mem_cons] at hk ⊢
    rcases hk with rfl | hk
    · rw [subnodes_mk, List.mem_cons] at hm'
      exact hm'
    · exact Or.inr (ih k hk m' hm')
  · intro k hk; simp at hk
  · intro n t ihn iht k hk m hm
    rw [subnodesList_cons, List.mem_append] at hk ⊢
    rcases hk with hk | hk
    · exact Or.inl (ihn k hk m hm)
    · exact Or.inr (iht k hk m hm)

theorem findNode_eq_none :
    (∀ n : MindmapNode, ∀ tid, findNode tid n = none ↔ tid ∉ n.ids) ∧
      (∀ l : NodeList, ∀ tid, findNodeList tid l = none ↔ tid ∉ l.idsList) := by
  refine treeInd _ _ ?_ ?_ ?_
  · intro i l s d m cs ih tid
    rw [findNode, ids_mk, List.mem_cons]
    split
    · next h => simp [h.symm]
    · next h =>
      rw [ih]
      have hne : ¬tid = i := fun hh => h hh.symm
      simp [hne]
  · intro tid; simp [findNodeList]
  · intro n t ihn iht tid
    rw [findNodeList, idsList_cons, List.mem_append]
    cases hfn : findNode tid n with
    | some f =>
      have hmem : tid ∈ n.ids := by
        by_contra hno
        have := (ihn tid).mpr hno
        rw [hfn] at this
        exact Option.noConfusion this
      simp [hmem]
    | none =>
      have hn : tid ∉ n.ids := (ihn tid).mp hfn
      rw [iht]
      simp [hn]

/-! ## Deletion lemmas -/

theorem childIds_subset_ids (n : MindmapNode) : n.children.idsList ⊆ n.ids := by
  cases n; simp

theorem delete_eq_none_iff (n : MindmapNode) (tid : String) :
    deleteNodeFromTree n tid = none ↔ tid = n.id := by
  cases n with
  | mk i l s d m cs =>
    rw [deleteNodeFromTree]
    split
    · next h => simp [h.symm]
    · next h =>
      refine iff_of_false (by simp) fun hh => h hh.symm

theorem delete_ids :
    (∀ n : MindmapNode, ∀ tid t', deleteNodeFromTree n tid = some t' →
      tid ∉ t'.ids ∧ t'.ids ⊆ n.ids) ∧
    (∀ l : NodeList, ∀ tid,
      tid ∉ (deleteNodeListFromTree l tid).idsList ∧
      (deleteNodeListFromTree l tid).idsList ⊆ l.idsList) := by
  refine treeInd _ _ ?_ ?_ ?_
  · intro i l s d m cs ih tid t' hdel
    rw [deleteNodeFromTree] at hdel
    split at hdel
    · exact Option.noConfusion hdel
    · next hne =>
      obtain rfl : MindmapNode.mk i l s d m (deleteNodeListFromTree cs tid) = t' :=
        Option.some.inj hdel
      constructor
      · rw [ids_mk, List.mem_cons]
        rintro (rfl | hmem)
        · exact hne rfl
        · exact (ih tid).1 hmem
      · rw [ids_mk, ids_mk]
        exact List.cons_subset_cons i (ih tid).2
  · intro tid
    rw [deleteNodeListFromTree]
    simp
  · intro n t ihn iht tid
    rw [deleteNodeListFromTree]
    cases hdel : deleteNodeFromTree n tid with
    | none =>
      refine ⟨(iht tid).1, (iht tid).2.trans (List.subset_append_right _ _)⟩
    | some h2 =>
      constructor
      · rw [idsList_cons, List.mem_append]
        rintro (hmem | hmem)
        · exact (ihn tid h2 hdel).1 hmem
        · exact (iht tid).1 hmem
      · rw [idsList_cons, idsList_cons]
        exact List.append_subset.mpr
          ⟨(ihn tid h2 hdel).2.trans (List.subset_append_left _ _),
           (iht tid).2.trans (List.subset_append_right _ _)⟩

theorem delete_desc :
    (∀ n : MindmapNode, uniqueIds n → ∀ tid t',
        deleteNodeFromTree n tid = some t' →
        ∀ X ∈ n.subnodes, X.id = tid →
        ∀ d ∈ X.children.idsList, d ∉ t'.ids) ∧
    (∀ l : NodeList, l.idsList.Nodup → ∀ tid,
        ∀ X ∈ l.subnodesList, X.id = tid →
        ∀ d ∈ X.children.idsList, d ∉ (deleteNodeListFromTree l tid).idsList) := by
  refine treeInd _ _ ?_ ?_ ?_
  · intro i l s d m cs ih hu tid t' hdel X hX hXid dd hdd
    rw [deleteNodeFromTree] at hdel
    split at hdel
    · exact Option.noConfusion hdel
    · next hne =>
      obtain rfl : MindmapNode.mk i l s d m (deleteNodeListFromTree cs tid) = t' :=
        Option.some.inj hdel
      rw [subnodes_mk, List.mem_cons] at hX
      rcases hX with rfl | hX
      · exact absurd (by simpa using hXid) hne
      · have hdcs : dd ∈ cs.idsList :=
          subnode_ids_sublist.2 cs X hX |>.subset
            (childIds_subset_ids X hdd)
        have hu' : cs.idsList.Nodup := (List.nodup_cons.mp hu).2
        rw [ids_mk, List.mem_cons]
        rintro (rfl | hmem)
        · exact (List.nodup_cons.mp hu).1 hdcs
        · exact ih hu' tid X hX hXid dd hdd hmem
  · intro _ tid X hX
    simp at hX
  · intro n t ihn iht hnd tid X hX hXid dd hdd
    rw [idsList_cons, List.nodup_append] at hnd
    obtain ⟨hn, ht, hdisj⟩ := hnd
    rw [subnodesList_cons, List.mem_append] at hX
    rw [deleteNodeListFromTree]
    rcases hX with hX | hX
    · have hdn : dd ∈ n.ids :=
        (subnode_ids_sublist.1 n X hX).subset (childIds_subset_ids X hdd)
      cases hdel : deleteNodeFromTree n tid with
      | none =>
        intro hmem
        exact hdisj hdn ((delete_ids.2 t tid).2 hmem)
      | some h2 =>
        rw [idsList_cons, List.mem_append]
        rintro (hmem | hmem)
        · exact ihn hn tid h2 hdel X hX hXid dd hdd hmem
        · exact hdisj hdn ((delete_ids.2 t tid).2 hmem)
    · have hdt : dd ∈ t.idsList :=
        (subnode_ids_sublist.2 t X hX).subset (childIds_subset_ids X hdd)
      cases hdel : deleteNodeFromTree n tid with
      | none => exact iht ht tid X hX hXid dd hdd
      | some h2 =>
        rw [idsList_cons, List.mem_append]
        rintro (hmem | hmem)
        · exact hdisj ((delete_ids.1 n tid h2 hdel).2 hmem) hdt
        · exact iht ht tid X hX hXid dd hdd hmem

theorem delete_retain :
    (∀ n : MindmapNode, ∀ tid t', deleteNodeFromTree n tid = some t' →
      ∀ y ∈ n.ids, (∀ X ∈ n.subnodes, X.id = tid → y ∉ X.ids) → y ∈ t'.ids) ∧
    (∀ l : NodeList, ∀ tid, ∀ y ∈ l.idsList,
      (∀ X ∈ l.subnodesList, X.id = tid → y ∉ X.ids) →
      y ∈ (deleteNodeListFromTree l tid).idsList) := by
  refine treeInd _ _ ?_ ?_ ?_
  · intro i l s d m cs ih tid t' hdel y hy hout
    rw [deleteNodeFromTree] at hdel
    split at hdel
    · exact Option.noConfusion hdel
    · next hne =>
      obtain rfl : MindmapNode.mk i l s d m (deleteNodeListFromTree cs tid) = t' :=
        Option.some.inj hdel
      rw [ids_mk, List.mem_cons] at hy ⊢
      rcases hy with rfl | hy
      · exact Or.inl rfl
      · refine Or.inr (ih tid y hy ?_)
        intro X hX hXid
        exact hout X (by rw [subnodes_mk]; exact List.mem_cons_of_mem _ hX) hXid
  · intro tid y hy
    simp at hy
  · intro n t ihn iht tid y hy hout
    rw [idsList_cons, List.mem_append] at hy
    rw [deleteNodeListFromTree]
    have houtn : ∀ X ∈ n.subnodes, X.id = tid → y ∉ X.ids := fun X hX =>
      hout X (by rw [subnodesList_cons]; exact List.mem_append_left _ hX)
    have houtt : ∀ X ∈ t.subnodesList, X.id = tid → y ∉ X.ids := fun X hX =>
      hout X (by rw [subnodesList_cons]; exact List.mem_append_right _ hX)
    rcases hy with hy | hy
    · cases hdel : deleteNodeFromTree n tid with
      | none =>
        have : tid = n.id := (delete_eq_none_iff n tid).mp hdel
        exact absurd hy (houtn n (mem_subnodes_self n) this.symm)
      | some h2 =>
        rw [idsList_cons]
        exact List.mem_append_left _ (ihn tid h2 hdel y hy houtn)
    · cases hdel : deleteNodeFromTree n tid with
      | none => exact iht tid y hy houtt
      | some h2 =>
        rw [idsList_cons]
        exact List.mem_append_right _ (iht tid y hy houtt)

/-- C5: for every tree with unique ids, `deleteNodeFromTree` returns null
if and only if the id equals the root's id (and the controller's
`handleDeleteNode` rejects root deletion as a no-op); otherwise it returns
a tree in which `findNode` returns null for the id and for every id that
was a descendant of the deleted node, while all nodes outside the deleted
subtree are retained. -/
theorem C5_delete_removes_subtree (tree : MindmapNode) (nodeId : String)
    (huniq : uniqueIds tree) :
    (deleteNodeFromTree tree nodeId = none ↔ nodeId = tree.id) ∧
    (∀ st : AppState, handleDeleteNode st st.mindmapRoot.id = st) ∧
    (∀ t', deleteNodeFromTree tree nodeId = some t' →
      findNode nodeId t' = none ∧
      (∀ X ∈ tree.subnodes, X.id = nodeId →
        ∀ d ∈ X.children.idsList, findNode d t' = none) ∧
      (∀ y ∈ tree.ids, (∀ X ∈ tree.subnodes, X.id = nodeId → y ∉ X.ids) →
        y ∈ t'.ids)) := by
  refine ⟨delete_eq_none_iff tree nodeId, ?_, ?_⟩
  · intro st
    unfold handleDeleteNode
    rw [if_pos rfl]
  · intro t' hdel
    refine ⟨?_, ?_, ?_⟩
    · exact (findNode_eq_none.1 t' nodeId).mpr
        (delete_ids.1 tree nodeId t' hdel).1
    · intro X hX hXid d hd
      exact (findNode_eq_none.1 t' d).mpr
        (delete_desc.1 tree huniq nodeId t' hdel X hX hXid d hd)
    · exact delete_retain.1 tree nodeId t' hdel

theorem C5_delete_witness :
    uniqueIds chainDoc ∧
    (deleteNodeFromTree chainDoc "a" = none ↔ "a" = chainDoc.id) :=
  ⟨by decide, (C5_delete_removes_subtree chainDoc "a" (by decide)).1⟩

/-- C9: after every successful non-root deletion, `handleDeleteNode`
clears the selection, the side panel and the highlight set
unconditionally, regardless of where the previous selection pointed. -/
theorem C9_delete_clears_selection (st : AppState) (nodeId : String)
    (hne : nodeId ≠ st.mindmapRoot.id) :
    (∃ r, deleteNodeFromTree st.mindmapRoot nodeId = some r ∧
      (handleDeleteNode st nodeId).mindmapRoot = r) ∧
    (handleDeleteNode st nodeId).selectedNodeId = none ∧
    (handleDeleteNode st nodeId).showSidePanel = false ∧
    (handleDeleteNode st nodeId).highlightedNodes = ∅ := by
  unfold handleDeleteNode
  rw [if_neg hne]
  cases hdel : deleteNodeFromTree st.mindmapRoot nodeId with
  | none => exact absurd ((delete_eq_none_iff _ _).mp hdel) hne
  | some r => exact ⟨⟨r, rfl, rfl⟩, rfl, rfl, rfl⟩

theorem C9_delete_clears_witness :
    (handleDeleteNode ⟨chainDoc, ∅, some "r", true, ∅⟩ "a").selectedNodeId
        = none ∧
    (handleDeleteNode ⟨chainDoc, ∅, some "r", true, ∅⟩ "a").showSidePanel
        = false ∧
    (handleDeleteNode ⟨chainDoc, ∅, some "r", true, ∅⟩ "a").highlightedNodes
        = ∅ :=
  (C9_delete_clears_selection ⟨chainDoc, ∅, some "r", true, ∅⟩ "a"
    (by decide)).2

/-! ## Update lemmas -/

theorem update_id (nodeId : String) (u : NodeUpdate) (n : MindmapNode) :
    (updateNodeInTree nodeId u n).id = n.id := by
  cases n with
  | mk i l s d m cs =>
    rw [updateNodeInTree]
    split
    · simp [mergeNode]
    · simp

theorem update_headIds (nodeId : String) (u : NodeUpdate) :
    ∀ l : NodeList, (updateNodeList nodeId u l).headIds = l.headIds := by
  refine listInd _ ?_ ?_
  · rfl
  · intro n t ih
    rw [updateNodeList, headIds_cons, headIds_cons, ih, update_id]

theorem update_findNode :
    (∀ n : MindmapNode, ∀ nodeId u,
      findNode nodeId (updateNodeInTree nodeId u n) =
        (findNode nodeId n).map (fun x => mergeNode x u)) ∧
    (∀ l : NodeList, ∀ nodeId u,
      findNodeList nodeId (updateNodeList nodeId u l) =
        (findNodeList nodeId l).map (fun x => mergeNode x u)) := by
  refine treeInd _ _ ?_ ?_ ?_
  · intro i l s d m cs ih nodeId u
    rw [updateNodeInTree]
    split
    · next hi =>
      rw [mergeNode, findNode, findNode, if_pos hi, if_pos hi]
      simp [mergeNode]
    · next hi =>
      rw [findNode, findNode, if_neg hi, if_neg hi, ih]
  · intro nodeId u
    simp [updateNodeList, findNodeList]
  · intro n t ihn iht nodeId u
    rw [updateNodeList, findNodeList, findNodeList, ihn nodeId u]
    cases hf : findNode nodeId n with
    | some f => simp
    | none => simp [iht nodeId u]

theorem update_frame :
    (∀ n : MindmapNode, ∀ nodeId u, u.children = none → ∀ id', id' ≠ nodeId →
      Option.map nodeAttrs (findNode id' (updateNodeInTree nodeId u n)) =
        Option.map nodeAttrs (findNode id' n)) ∧
    (∀ l : NodeList, ∀ nodeId u, u.children = none → ∀ id', id' ≠ nodeId →
      Option.map nodeAttrs (findNodeList id' (updateNodeList nodeId u l)) =
        Option.map nodeAttrs (findNodeList id' l)) := by
  refine treeInd _ _ ?_ ?_ ?_
  · intro i l s d m cs ih nodeId u hu id' hne
    rw [updateNodeInTree]
    split
    · next hi =>
      subst hi
      rw [mergeNode, hu, Option.getD_none, findNode, findNode,
        if_neg (fun hh : i = id' => hne hh.symm),
        if_neg (fun hh : i = id' => hne hh.symm)]
    · next hi =>
      rw [findNode, findNode]
      split
      · next hid =>
        rw [Option.map_some', Option.map_some']
        subst hid
        simp [nodeAttrs, MindmapNode.label, MindmapNode.summary,
          MindmapNode.description, MindmapNode.metadata, update_headIds]
      · next hid => exact ih nodeId u hu id' hne
  · intro nodeId u hu id' hne
    rw [updateNodeList]
  · intro n t ihn iht nodeId u hu id' hne
    rw [updateNodeList, findNodeList, findNodeList]
    have hn := ihn nodeId u hu id' hne
    cases hf : findNode id' n with
    | some f =>
      rw [hf, Option.map_some'] at hn
      cases hg : findNode id' (updateNodeInTree nodeId u n) with
      | some g =>
        rw [hg, Option.map_some'] at hn
        rw [Option.map_some', Option.map_some']
        exact hn
      | none => rw [hg, Option.map_none'] at hn; exact Option.noConfusion hn
    | none =>
      rw [hf, Option.map_none'] at hn
      cases hg : findNode id' (updateNodeInTree nodeId u n) with
      | some g => rw [hg, Option.map_some'] at hn; exact Option.noConfusion hn
      | none => exact iht nodeId u hu id' hne

theorem update_noop :
    (∀ n : MindmapNode, ∀ nodeId u, nodeId ∉ n.ids →
      updateNodeInTree nodeId u n = n) ∧
    (∀ l : NodeList, ∀ nodeId u, nodeId ∉ l.idsList →
      updateNodeList nodeId u l = l) := by
  refine treeInd _ _ ?_ ?_ ?_
  · intro i l s d m cs ih nodeId u hmem
    rw [ids_mk, List.mem_cons] at hmem
    push_neg at hmem
    rw [updateNodeInTree, if_neg (fun hh : i = nodeId => hmem.1 hh.symm),
      ih nodeId u hmem.2]
  · intro nodeId u _
    rw [updateNodeList]
  · intro n t ihn iht nodeId u hmem
    rw [idsList_cons, List.mem_append] at hmem
    push_neg at hmem
    rw [updateNodeList, ihn nodeId u hmem.1, iht nodeId u hmem.2]

/-- C6 (amended): for every tree with unique ids, `updateNodeInTree`
returns a tree in which the node matching the id has exactly the supplied
fields replaced and all other fields retained (shallow merge, stated via
`findNode` and `mergeNode`); provided the update does not supply
`children`, every node with a different id keeps its local attributes; and
if the id occurs nowhere the result equals the input tree. -/
theorem C6_update_merge (tree : MindmapNode) (nodeId : String)
    (u : NodeUpdate) (huniq : uniqueIds tree) :
    (findNode nodeId (updateNodeInTree nodeId u tree) =
      (findNode nodeId tree).map (fun x => mergeNode x u)) ∧
    (u.children = none → ∀ id', id' ≠ nodeId →
      Option.map nodeAttrs (findNode id' (updateNodeInTree nodeId u tree)) =
        Option.map nodeAttrs (findNode id' tree)) ∧
    (nodeId ∉ tree.ids → updateNodeInTree nodeId u tree = tree) :=
  ⟨update_findNode.1 tree nodeId u,
   fun hu id' hne => update_frame.1 tree nodeId u hu id' hne,
   update_noop.1 tree nodeId u⟩

theorem C6_update_witness :
    uniqueIds chainDoc ∧
    findNode "a" (updateNodeInTree "a" { label := some "A2" } chainDoc) =
      (findNode "a" chainDoc).map
        (fun x => mergeNode x { label := some "A2" }) :=
  ⟨by decide,
   (C6_update_merge chainDoc "a" { label := some "A2" } (by decide)).1⟩

/-- C6 counterexample: `updateNodeInTree` with a partial that supplies
`children` removes the node "b", whose id differs from the updated id "a",
refuting "every node with a different id is unchanged" for arbitrary
partial fields. -/
theorem C6_update_counterexample :
    uniqueIds chainDoc ∧ ("b" : String) ≠ "a" ∧
    findNode "b" chainDoc ≠ none ∧
    findNode "b" (updateNodeInTree "a" { children := some .nil } chainDoc)
      = none := by decide

/-! ## Search lemmas -/

theorem nodeMatchesQuery_iff_specMatches (q : String) (m : MindmapNode) :
    nodeMatchesQuery (jsToLower q) m = true ↔ specMatches q m := by
  cases m with
  | mk i l s d md cs =>
    rw [nodeMatchesQuery, specMatches]
    simp only [MindmapNode.label, MindmapNode.summary, MindmapNode.description,
      MindmapNode.metadata, strIncludes, Bool.or_eq_true, decide_eq_true_iff]
    cases md with
    | none => simp [or_assoc]
    | some meta =>
      cases hts : meta.tags with
      | none => simp [hts, or_assoc]
      | some ts => simp [hts, List.any_eq_true, or_assoc]

theorem searchInNode_mem :
    (∀ n : MindmapNode, ∀ q y, y ∈ searchInNode q n ↔
      ∃ m ∈ n.subnodes, m.id = y ∧ nodeMatchesQuery q m = true) ∧
    (∀ l : NodeList, ∀ q y, y ∈ searchInNodeList q l ↔
      ∃ m ∈ l.subnodesList, m.id = y ∧ nodeMatchesQuery q m = true) := by
  refine treeInd _ _ ?_ ?_ ?_
  · intro i l s d md cs ih q y
    rw [searchInNode, List.mem_append, ih, subnodes_mk]
    by_cases hm : nodeMatchesQuery q (MindmapNode.mk i l s d md cs) = true
    · rw [if_pos hm]
      simp only [List.mem_cons, List.not_mem_nil, or_false]
      constructor
      · rintro (rfl | ⟨m, hmem, hid, hq⟩)
        · exact ⟨_, Or.inl rfl, rfl, hm⟩
        · exact ⟨m, Or.inr hmem, hid, hq⟩
      · rintro ⟨m, rfl | hmem, hid, hq⟩
        · exact Or.inl hid.symm
        · exact Or.inr ⟨m, hmem, hid, hq⟩
    · rw [if_neg hm]
      simp only [List.not_mem_nil, false_or, List.mem_cons]
      constructor
      · rintro ⟨m, hmem, hid, hq⟩
        exact ⟨m, Or.inr hmem, hid, hq⟩
      · rintro ⟨m, rfl | hmem, hid, hq⟩
        · exact absurd hq hm
        · exact ⟨m, hmem, hid, hq⟩
  · intro q y
    simp [searchInNodeList]
  · intro n t ihn iht q y
    rw [searchInNodeList, List.mem_append, ihn, iht, subnodesList_cons]
    constructor
    · rintro (⟨m, hmem, rfl, hq⟩ | ⟨m, hmem, rfl, hq⟩)
      · exact ⟨m, List.mem_append_left _ hmem, rfl, hq⟩
      · exact ⟨m, List.mem_append_right _ hmem, rfl, hq⟩
    · rintro ⟨m, hmem, rfl, hq⟩
      rw [List.mem_append] at hmem
      rcases hmem with hmem | hmem
      · exact Or.inl ⟨m, hmem, rfl, hq⟩
      · exact Or.inr ⟨m, hmem, rfl, hq⟩

/-- C8 (amended): on a search query change with a query that is non-blank
after trimming, the highlight set becomes exactly the ids of the nodes
whose label, summary, description or any metadata tag contains the query
as a case-insensitive substring; when the query becomes blank, highlights
are cleared exactly when the selection is JavaScript-falsy (null or the
empty-string id), and otherwise kept.  In particular searching "library"
against a node with tags ["library","ui"] includes that node's id. -/
theorem C8_search_highlights (root : MindmapNode) (q : String)
    (sel : Option String) (h : Finset String) :
    (jsTrim q ≠ "" → ∀ y, y ∈ searchHighlightSync root q sel h ↔
      ∃ m ∈ root.subnodes, m.id = y ∧ specMatches q m) ∧
    (jsTrim q = "" → searchHighlightSync root q sel h =
      if sel = none ∨ sel = some "" then ∅ else h) ∧
    "lib" ∈ searchHighlightSync libraryDoc "library" none ∅ := by
  refine ⟨?_, ?_, ?_⟩
  · intro htrim y
    rw [searchHighlightSync, if_pos htrim, List.mem_toFinset, searchNodes,
      if_neg htrim, searchInNode_mem.1]
    constructor
    · rintro ⟨m, hmem, rfl, hq⟩
      exact ⟨m, hmem, rfl, (nodeMatchesQuery_iff_specMatches q m).mp hq⟩
    · rintro ⟨m, hmem, rfl, hq⟩
      exact ⟨m, hmem, rfl, (nodeMatchesQuery_iff_specMatches q m).mpr hq⟩
  · intro htrim
    rw [searchHighlightSync, if_neg (by simp [htrim])]
  · decide

theorem C8_search_witness :
    (jsTrim "library" ≠ "") ∧
    ("lib" ∈ searchHighlightSync libraryDoc "library" none ∅ ↔
      ∃ m ∈ libraryDoc.subnodes, m.id = "lib" ∧ specMatches "library" m) :=
  ⟨by decide,
   (C8_search_highlights libraryDoc "library" none ∅).1 (by decide) "lib"⟩

/-- C8 counterexample: (i) the whitespace-only query " " is non-empty and
the root of `spacedDoc` contains it as a substring of its label, yet the
search-highlight recomputation leaves the highlight set empty instead of
highlighting that node; (ii) with a blank query and the root of
`emptyIdDoc` (id "") selected, the highlights are cleared even though a
node is currently selected. -/
theorem C8_search_counterexample :
    ((" " : String) ≠ "" ∧
      (∃ m ∈ spacedDoc.subnodes, m.id = "r" ∧ specMatches " " m) ∧
      "r" ∉ searchHighlightSync spacedDoc " " none ∅) ∧
    (emptyIdDoc.id = "" ∧
      searchHighlightSync emptyIdDoc "" (some "") {"z"} = ∅ ∧
      ({"z"} : Finset String) ≠ ∅) := by
  refine ⟨⟨by decide, ⟨spacedDoc, mem_subnodes_self _, rfl, Or.inl ?_⟩,
    by decide⟩, by decide, by decide, by decide⟩
  decide

/-- C10 (amended): a query consisting only of whitespace is treated as
empty at the public interface even though it is a non-empty string:
`searchNodes` returns no matches for it, no highlight recomputation from
search occurs, and the highlights are cleared exactly when the selection
is JavaScript-falsy (null or the empty-string id). -/
theorem C10_whitespace_query (root : MindmapNode) (q : String)
    (sel : Option String) (h : Finset String)
    (hne : q ≠ "") (htrim : jsTrim q = "") :
    searchNodes root q = [] ∧
    searchHighlightSync root q sel h =
      if sel = none ∨ sel = some "" then ∅ else h := by
  refine ⟨?_, ?_⟩
  · rw [searchNodes, if_pos htrim]
  · rw [searchHighlightSync, if_neg (by simp [htrim])]

theorem C10_whitespace_witness :
    (" " : String) ≠ "" ∧ jsTrim " " = "" ∧
    searchNodes chainDoc " " = [] ∧
    searchHighlightSync chainDoc " " (some "r") {"a"} = {"a"} := by
  have hmain := C10_whitespace_query chainDoc " " (some "r") {"a"}
    (by decide) (by decide)
  refine ⟨by decide, by decide, hmain.1, ?_⟩
  rw [hmain.2, if_neg (by decide)]

/-- C10 counterexample: with the whitespace query " " and the root of
`emptyIdDoc` (id "") selected, the code clears the highlights even though
a node is currently selected, refuting "cleared only when no node is
currently selected". -/
theorem C10_whitespace_counterexample :
    emptyIdDoc.id = "" ∧
    searchHighlightSync emptyIdDoc " " (some "") {"z"} = ∅ ∧
    ({"z"} : Finset String) ≠ ∅ := by decide

/-! ## Layout lemmas -/

theorem layoutEntry_id (nid cc lvl idx px py cnt pa pid) :
    (layoutEntry nid cc lvl idx px py cnt pa pid).id = nid := by
  rw [layoutEntry]; split <;> rfl

theorem layoutEntry_level (nid cc lvl idx px py cnt pa pid) :
    (layoutEntry nid cc lvl idx px py cnt pa pid).level = lvl := by
  rw [layoutEntry]; split <;> rfl

theorem layoutEntry_index (nid cc lvl idx px py cnt pa pid) :
    (layoutEntry nid cc lvl idx px py cnt pa pid).index = idx := by
  rw [layoutEntry]; split <;> rfl

theorem layoutEntry_siblingCount (nid cc lvl idx px py cnt pa pid) :
    (layoutEntry nid cc lvl idx px py cnt pa pid).siblingCount = cnt := by
  rw [layoutEntry]; split <;> rfl

theorem layoutEntry_childCount (nid cc lvl idx px py cnt pa pid) :
    (layoutEntry nid cc lvl idx px py cnt pa pid).childCount = cc := by
  rw [layoutEntry]; split <;> rfl

theorem layoutEntry_parentAngle (nid cc lvl idx px py cnt pa pid) :
    (layoutEntry nid cc lvl idx px py cnt pa pid).parentAngle = pa := by
  rw [layoutEntry]; split <;> rfl

theorem layoutEntry_px (nid cc lvl idx px py cnt pa pid) :
    (layoutEntry nid cc lvl idx px py cnt pa pid).px = px := by
  rw [layoutEntry]; split <;> rfl

theorem layoutEntry_py (nid cc lvl idx px py cnt pa pid) :
    (layoutEntry nid cc lvl idx px py cnt pa pid).py = py := by
  rw [layoutEntry]; split <;> rfl

theorem layoutEntry_parentId (nid cc lvl idx px py cnt pa pid) :
    (layoutEntry nid cc lvl idx px py cnt pa pid).parentId = pid := by
  rw [layoutEntry]; split <;> rfl

theorem layoutEntry_radius (nid cc lvl idx px py cnt pa pid) :
    (layoutEntry nid cc lvl idx px py cnt pa pid).radius =
      if lvl = 0 then 0 else BASE_RADIUS * LEVEL_SCALE ^ (lvl - 1) := by
  rw [layoutEntry]
  split <;> rfl

theorem layoutEntry_angle (nid cc lvl idx px py cnt pa pid) :
    (layoutEntry nid cc lvl idx px py cnt pa pid).angle =
      if lvl = 0 then 0
      else if lvl = 1 then ((idx : ℝ) / (cnt : ℝ)) * Real.pi * 2
      else if cnt = 1 then pa
      else (pa - fanSpan cnt (BASE_RADIUS * LEVEL_SCALE ^ (lvl - 1)) / 2) +
        ((idx : ℝ) / ((cnt : ℝ) - 1)) *
          fanSpan cnt (BASE_RADIUS * LEVEL_SCALE ^ (lvl - 1)) := by
  rw [layoutEntry]
  split
  · rfl
  · split
    · rfl
    · rfl

theorem layoutEntry_x (nid cc lvl idx px py cnt pa pid) (h : ¬lvl = 0) :
    (layoutEntry nid cc lvl idx px py cnt pa pid).x =
      px + Real.cos ((layoutEntry nid cc lvl idx px py cnt pa pid).angle) *
        (layoutEntry nid cc lvl idx px py cnt pa pid).radius := by
  rw [layoutEntry]
  split
  · next h0 => exact absurd h0 h
  · rfl

theorem layoutEntry_y (nid cc lvl idx px py cnt pa pid) (h : ¬lvl = 0) :
    (layoutEntry nid cc lvl idx px py cnt pa pid).y =
      py + Real.sin ((layoutEntry nid cc lvl idx px py cnt pa pid).angle) *
        (layoutEntry nid cc lvl idx px py cnt pa pid).radius := by
  rw [layoutEntry]
  split
  · next h0 => exact absurd h0 h
  · rfl

theorem layoutEntry_x0 (nid cc idx px py cnt pa pid) :
    (layoutEntry nid cc 0 idx px py cnt pa pid).x = 0 := by
  rw [layoutEntry]
  split
  · rfl
  · next h => exact absurd rfl h

theorem layoutEntry_y0 (nid cc idx px py cnt pa pid) :
    (layoutEntry nid cc 0 idx px py cnt pa pid).y = 0 := by
  rw [layoutEntry]
  split
  · rfl
  · next h => exact absurd rfl h

theorem layoutEntry_invariant (nid cc lvl idx px py cnt pa pid) :
    EntryInvariant (layoutEntry nid cc lvl idx px py cnt pa pid) := by
  unfold EntryInvariant
  rw [layoutEntry_level, layoutEntry_radius, layoutEntry_angle,
    layoutEntry_index, layoutEntry_siblingCount, layoutEntry_parentAngle,
    layoutEntry_px, layoutEntry_py]
  by_cases h0 : lvl = 0
  · subst h0
    refine ⟨fun _ => ⟨layoutEntry_x0 .., layoutEntry_y0 .., ?_, ?_⟩,
      fun h1 => absurd h1 (by norm_num)⟩
    · simp
    · simp
  · refine ⟨fun hl => absurd hl h0, fun h1 => ?_⟩
    refine ⟨by simp only [if_neg h0], ?_, ?_, ?_, ?_⟩
    · rw [layoutEntry_x nid cc lvl idx px py cnt pa pid h0,
        layoutEntry_angle, layoutEntry_radius]
    · rw [layoutEntry_y nid cc lvl idx px py cnt pa pid h0,
        layoutEntry_angle, layoutEntry_radius]
    · intro hl1
      simp only [if_neg h0, if_pos hl1]
    · intro hl2
      have hne1 : ¬lvl = 1 := by omega
      simp only [if_neg h0, if_neg hne1]
      exact ⟨fun hcnt => by simp only [if_pos hcnt],
        fun hcnt => by simp only [if_neg hcnt]⟩

theorem calc_expand (collapsed : List String) (nid l s d m) (cs : NodeList)
    (level idx : ℕ) (px py : ℝ) (cnt : ℕ) (pa : ℝ) (pid : Option String)
    (hc : 0 < cs.length ∧ nid ∉ collapsed) :
    calculatePositions collapsed (.mk nid l s d m cs) level idx px py cnt
        pa pid =
      (layoutEntry nid cs.length level idx px py cnt pa pid ::
        (calculatePositionsList collapsed cs (level + 1) 0
          (layoutEntry nid cs.length level idx px py cnt pa pid).x
          (layoutEntry nid cs.length level idx px py cnt pa pid).y
          cs.length
          (layoutEntry nid cs.length level idx px py cnt pa pid).angle
          nid).1,
       edgeFromParent pid nid ++
        (calculatePositionsList collapsed cs (level + 1) 0
          (layoutEntry nid cs.length level idx px py cnt pa pid).x
          (layoutEntry nid cs.length level idx px py cnt pa pid).y
          cs.length
          (layoutEntry nid cs.length level idx px py cnt pa pid).angle
          nid).2) := by
  simp only [calculatePositions]
  rw [if_pos hc]

theorem calc_leaf (collapsed : List String) (nid l s d m) (cs : NodeList)
    (level idx : ℕ) (px py : ℝ) (cnt : ℕ) (pa : ℝ) (pid : Option String)
    (hc : ¬(0 < cs.length ∧ nid ∉ collapsed)) :
    calculatePositions collapsed (.mk nid l s d m cs) level idx px py cnt
        pa pid =
      ([layoutEntry nid cs.length level idx px py cnt pa pid],
       edgeFromParent pid nid) := by
  simp only [calculatePositions]
  rw [if_neg hc]

theorem calcList_nil (collapsed : List String) (lvl idx : ℕ) (x y : ℝ)
    (cnt : ℕ) (ang : ℝ) (pid : String) :
    calculatePositionsList collapsed .nil lvl idx x y cnt ang pid =
      ([], []) := by
  simp only [calculatePositionsList]

theorem calcList_cons (collapsed : List String) (h : MindmapNode)
    (t : NodeList) (lvl idx : ℕ) (x y : ℝ) (cnt : ℕ) (ang : ℝ)
    (pid : String) :
    calculatePositionsList collapsed (.cons h t) lvl idx x y cnt ang pid =
      ((calculatePositions collapsed h lvl idx x y cnt ang (some pid)).1 ++
        (calculatePositionsList collapsed t lvl (idx + 1) x y cnt ang
          pid).1,
       (calculatePositions collapsed h lvl idx x y cnt ang (some pid)).2 ++
        (calculatePositionsList collapsed t lvl (idx + 1) x y cnt ang
          pid).2) := by
  simp only [calculatePositionsList]

theorem edgeFromParent_none (nid : String) :
    edgeFromParent none nid = [] := rfl

theorem edgeFromParent_some (p nid : String) :
    edgeFromParent (some p) nid =
      if p = "" then []
      else [{ eid := "edge-" ++ p ++ "-" ++ nid, source := p,
              target := nid }] := rfl

theorem edgeFromParent_pairs_none (nid : String) :
    (edgeFromParent none nid).map (fun e => (e.source, e.target)) = [] := rfl

theorem edgeFromParent_pairs_some (p nid : String) :
    (edgeFromParent (some p) nid).map (fun e => (e.source, e.target)) =
      if p = "" then [] else [(p, nid)] := by
  by_cases hp : p = ""
  · rw [edgeFromParent_some, if_pos hp, if_pos hp]
    rfl
  · rw [edgeFromParent_some, if_neg hp, if_neg hp]
    rfl

theorem visibleEdges_none (collapsed : List String) (i l s d m)
    (cs : NodeList) :
    visibleEdges collapsed none (.mk i l s d m cs) =
      (if 0 < cs.length ∧ i ∉ collapsed
       then visibleEdgesList collapsed i cs else []) := by
  show [] ++ _ = _
  rw [List.nil_append]

theorem visibleEdges_some (collapsed : List String) (p : String) (i l s d m)
    (cs : NodeList) :
    visibleEdges collapsed (some p) (.mk i l s d m cs) =
      (if p = "" then [] else [(p, i)]) ++
      (if 0 < cs.length ∧ i ∉ collapsed
       then visibleEdgesList collapsed i cs else []) := rfl

theorem calc_levels :
    (∀ n : MindmapNode, ∀ collapsed level idx px py cnt pa pid,
      ∀ e ∈ (calculatePositions collapsed n level idx px py cnt pa pid).1,
        level ≤ e.level) ∧
    (∀ l : NodeList, ∀ collapsed lvl idx x y cnt ang pid,
      ∀ e ∈ (calculatePositionsList collapsed l lvl idx x y cnt ang pid).1,
        lvl ≤ e.level) := by
  refine treeInd _ _ ?_ ?_ ?_
  · intro i l s d m cs ih collapsed level idx px py cnt pa pid e he
    by_cases hc : 0 < cs.length ∧ i ∉ collapsed
    · rw [calc_expand collapsed i l s d m cs level idx px py cnt pa pid hc]
        at he
      rw [List.mem_cons] at he
      rcases he with rfl | he
      · rw [layoutEntry_level]
      · exact (Nat.le_succ level).trans (ih collapsed (level + 1) 0 _ _ _ _ _ e he)
    · rw [calc_leaf collapsed i l s d m cs level idx px py cnt pa pid hc]
        at he
      rw [List.mem_singleton] at he
      subst he
      rw [layoutEntry_level]
  · intro collapsed lvl idx x y cnt ang pid e he
    rw [calcList_nil] at he
    exact absurd he (List.not_mem_nil e)
  · intro n t ihn iht collapsed lvl idx x y cnt ang pid e he
    rw [calcList_cons, List.mem_append] at he
    rcases he with he | he
    · exact ihn collapsed lvl idx x y cnt ang (some pid) e he
    · exact iht collapsed lvl (idx + 1) x y cnt ang pid e he

theorem calc_ids :
    (∀ n : MindmapNode, ∀ collapsed level idx px py cnt pa pid,
      ((calculatePositions collapsed n level idx px py cnt pa pid).1).map
          LayoutEntry.id = visibleIds collapsed n) ∧
    (∀ l : NodeList, ∀ collapsed lvl idx x y cnt ang pid,
      ((calculatePositionsList collapsed l lvl idx x y cnt ang pid).1).map
          LayoutEntry.id = visibleIdsList collapsed l) := by
  refine treeInd _ _ ?_ ?_ ?_
  · intro i l s d m cs ih collapsed level idx px py cnt pa pid
    rw [visibleIds]
    by_cases hc : 0 < cs.length ∧ i ∉ collapsed
    · rw [calc_expand collapsed i l s d m cs level idx px py cnt pa pid hc,
        List.map_cons, layoutEntry_id, if_pos hc,
        ih collapsed (level + 1) 0 _ _ _ _ _]
    · rw [calc_leaf collapsed i l s d m cs level idx px py cnt pa pid hc,
        List.map_singleton, layoutEntry_id, if_neg hc]
  · intro collapsed lvl idx x y cnt ang pid
    rw [calcList_nil, visibleIdsList]
    rfl
  · intro n t ihn iht collapsed lvl idx x y cnt ang pid
    rw [calcList_cons, visibleIdsList, List.map_append,
      ihn collapsed lvl idx x y cnt ang (some pid),
      iht collapsed lvl (idx + 1) x y cnt ang pid]

theorem calc_edges :
    (∀ n : MindmapNode, ∀ collapsed level idx px py cnt pa pid,
      ((calculatePositions collapsed n level idx px py cnt pa pid).2).map
          (fun e => (e.source, e.target)) = visibleEdges collapsed pid n) ∧
    (∀ l : NodeList, ∀ collapsed lvl idx x y cnt ang pid,
      ((calculatePositionsList collapsed l lvl idx x y cnt ang pid).2).map
          (fun e => (e.source, e.target)) =
        visibleEdgesList collapsed pid l) := by
  refine treeInd _ _ ?_ ?_ ?_
  · intro i l s d m cs ih collapsed level idx px py cnt pa pid
    have hpairs : (edgeFromParent pid i).map (fun e => (e.source, e.target)) ++
        (if 0 < cs.length ∧ i ∉ collapsed
         then visibleEdgesList collapsed i cs else []) =
        visibleEdges collapsed pid (.mk i l s d m cs) := by
      cases pid with
      | none => rw [edgeFromParent_pairs_none, visibleEdges_none,
          List.nil_append]
      | some p => rw [edgeFromParent_pairs_some, visibleEdges_some]
    by_cases hc : 0 < cs.length ∧ i ∉ collapsed
    · rw [calc_expand collapsed i l s d m cs level idx px py cnt pa pid hc,
        List.map_append, ih collapsed (level + 1) 0 _ _ _ _ _, ← hpairs,
        if_pos hc]
    · rw [calc_leaf collapsed i l s d m cs level idx px py cnt pa pid hc,
        ← hpairs, if_neg hc, List.append_nil]
  · intro collapsed lvl idx x y cnt ang pid
    rw [calcList_nil, visibleEdgesList]
    rfl
  · intro n t ihn iht collapsed lvl idx x y cnt ang pid
    rw [calcList_cons, visibleEdgesList, List.map_append,
      ihn collapsed lvl idx x y cnt ang pid,
      iht collapsed lvl (idx + 1) x y cnt ang pid]

theorem calc_invariant :
    (∀ n : MindmapNode, ∀ collapsed level idx px py cnt pa pid,
      ∀ e ∈ (calculatePositions collapsed n level idx px py cnt pa pid).1,
        EntryInvariant e) ∧
    (∀ l : NodeList, ∀ collapsed lvl idx x y cnt ang pid,
      ∀ e ∈ (calculatePositionsList collapsed l lvl idx x y cnt ang pid).1,
        EntryInvariant e) := by
  refine treeInd _ _ ?_ ?_ ?_
  · intro i l s d m cs ih collapsed level idx px py cnt pa pid e he
    by_cases hc : 0 < cs.length ∧ i ∉ collapsed
    · rw [calc_expand collapsed i l s d m cs level idx px py cnt pa pid hc,
        List.mem_cons] at he
      rcases he with rfl | he
      · exact layoutEntry_invariant ..
      · exact ih collapsed (level + 1) 0 _ _ _ _ _ e he
    · rw [calc_leaf collapsed i l s d m cs level idx px py cnt pa pid hc,
        List.mem_singleton] at he
      subst he
      exact layoutEntry_invariant ..
  · intro collapsed lvl idx x y cnt ang pid e he
    rw [calcList_nil] at he
    exact absurd he (List.not_mem_nil e)
  · intro n t ihn iht collapsed lvl idx x y cnt ang pid e he
    rw [calcList_cons, List.mem_append] at he
    rcases he with he | he
    · exact ihn collapsed lvl idx x y cnt ang (some pid) e he
    · exact iht collapsed lvl (idx + 1) x y cnt ang pid e he

theorem linked_mono {L L' : List LayoutEntry} {e : LayoutEntry}
    (h : Linked L e) (hsub : L ⊆ L') : Linked L' e := by
  obtain ⟨pe, hpe, hrest⟩ := h
  exact ⟨pe, hsub hpe, hrest⟩

theorem calc_linked :
    (∀ n : MindmapNode, ∀ collapsed level idx px py cnt pa pid,
      ∀ e ∈ (calculatePositions collapsed n level idx px py cnt pa pid).1,
        (e.level = level ∧ e.px = px ∧ e.py = py ∧ e.parentAngle = pa ∧
          e.siblingCount = cnt ∧ e.parentId = pid) ∨
        Linked (calculatePositions collapsed n level idx px py cnt pa
          pid).1 e) ∧
    (∀ l : NodeList, ∀ collapsed lvl idx x y cnt ang pid,
      ∀ e ∈ (calculatePositionsList collapsed l lvl idx x y cnt ang pid).1,
        (e.level = lvl ∧ e.px = x ∧ e.py = y ∧ e.parentAngle = ang ∧
          e.siblingCount = cnt ∧ e.parentId = some pid) ∨
        Linked (calculatePositionsList collapsed l lvl idx x y cnt ang
          pid).1 e) := by
  refine treeInd _ _ ?_ ?_ ?_
  · intro i l s d m cs ih collapsed level idx px py cnt pa pid e he
    by_cases hc : 0 < cs.length ∧ i ∉ collapsed
    · rw [calc_expand collapsed i l s d m cs level idx px py cnt pa pid hc]
        at he ⊢
      rw [List.mem_cons] at he
      rcases he with rfl | he
      · exact Or.inl ⟨layoutEntry_level .., layoutEntry_px ..,
          layoutEntry_py .., layoutEntry_parentAngle ..,
          layoutEntry_siblingCount .., layoutEntry_parentId ..⟩
      · rcases ih collapsed (level + 1) 0 _ _ _ _ _ e he with
          ⟨hlvl, hpx, hpy, hpa, hsc, hpid⟩ | hlink
        · refine Or.inr ⟨layoutEntry i cs.length level idx px py cnt pa pid,
            List.mem_cons_self _ _, ?_, ?_, ?_, ?_, ?_, ?_⟩
          · rw [layoutEntry_id, hpid]
          · rw [hpa]
          · rw [hpx]
          · rw [hpy]
          · rw [layoutEntry_childCount, hsc]
          · rw [hlvl, layoutEntry_level]
        · exact Or.inr (linked_mono hlink (List.subset_cons_self _ _))
    · rw [calc_leaf collapsed i l s d m cs level idx px py cnt pa pid hc]
        at he ⊢
      rw [List.mem_singleton] at he
      subst he
      exact Or.inl ⟨layoutEntry_level .., layoutEntry_px ..,
        layoutEntry_py .., layoutEntry_parentAngle ..,
        layoutEntry_siblingCount .., layoutEntry_parentId ..⟩
  · intro collapsed lvl idx x y cnt ang pid e he
    rw [calcList_nil] at he
    exact absurd he (List.not_mem_nil e)
  · intro n t ihn iht collapsed lvl idx x y cnt ang pid e he
    rw [calcList_cons, List.mem_append] at he
    rw [calcList_cons]
    rcases he with he | he
    · rcases ihn collapsed lvl idx x y cnt ang (some pid) e he with hleft | hlink
      · exact Or.inl hleft
      · exact Or.inr (linked_mono hlink (List.subset_append_left _ _))
    · rcases iht collapsed lvl (idx + 1) x y cnt ang pid e he with
        hleft | hlink
      · exact Or.inl hleft
      · exact Or.inr (linked_mono hlink (List.subset_append_right _ _))

theorem layoutEntry_angle0 (nid cc idx px py cnt pa pid) :
    (layoutEntry nid cc 0 idx px py cnt pa pid).angle = 0 := by
  rw [layoutEntry_angle]
  norm_num

theorem layoutEntry_angle1 (nid cc idx px py cnt pa pid) :
    (layoutEntry nid cc 1 idx px py cnt pa pid).angle =
      ((idx : ℝ) / (cnt : ℝ)) * Real.pi * 2 := by
  rw [layoutEntry_angle]
  norm_num

theorem polar_sqrt (t r : ℝ) (hr : 0 ≤ r) :
    Real.sqrt ((Real.cos t * r) ^ 2 + (Real.sin t * r) ^ 2) = r := by
  have hsum : (Real.cos t * r) ^ 2 + (Real.sin t * r) ^ 2 = r ^ 2 := by
    calc (Real.cos t * r) ^ 2 + (Real.sin t * r) ^ 2
        = (Real.sin t ^ 2 + Real.cos t ^ 2) * r ^ 2 := by ring
      _ = 1 * r ^ 2 := by rw [Real.sin_sq_add_cos_sq]
      _ = r ^ 2 := one_mul _
  rw [hsum, Real.sqrt_sq hr]

theorem level1_at_origin (root : MindmapNode) (collapsed : List String) :
    ∀ e ∈ (convertMindmapToFlow root collapsed).1, e.level = 1 →
      e.px = 0 ∧ e.py = 0 := by
  intro e he hl
  rw [convertMindmapToFlow] at he
  rcases calc_linked.1 root collapsed 0 0 0 0 1 0 none e he with
    ⟨hlvl, _⟩ | ⟨pe, hpe, _, _, hx, hy, _, hplvl⟩
  · omega
  · have hpe0 : pe.level = 0 := by omega
    have hinv := calc_invariant.1 root collapsed 0 0 0 0 1 0 none pe hpe
    obtain ⟨hx0, hy0, _, _⟩ := hinv.1 hpe0
    exact ⟨by rw [← hx, hx0], by rw [← hy, hy0]⟩

theorem calc_filter_level1 (collapsed : List String) (n : MindmapNode)
    (i0 : ℕ) (x y : ℝ) (cnt : ℕ) (ang : ℝ) (pid : String) :
    (calculatePositions collapsed n 1 i0 x y cnt ang (some pid)).1.filter
        (fun e => decide (e.level = 1)) =
      [layoutEntry n.id n.children.length 1 i0 x y cnt ang (some pid)] := by
  cases n with
  | mk i l s d m cs =>
    have h1 : (fun e => decide (e.level = 1))
        (layoutEntry i cs.length 1 i0 x y cnt ang (some pid)) = true := by
      show decide ((layoutEntry i cs.length 1 i0 x y cnt ang
        (some pid)).level = 1) = true
      rw [layoutEntry_level]
      rfl
    by_cases hc : 0 < cs.length ∧ i ∉ collapsed
    · rw [calc_expand collapsed i l s d m cs 1 i0 x y cnt ang (some pid) hc]
      have hlev := calc_levels.2 cs collapsed (1 + 1) 0
        (layoutEntry i cs.length 1 i0 x y cnt ang (some pid)).x
        (layoutEntry i cs.length 1 i0 x y cnt ang (some pid)).y
        cs.length
        (layoutEntry i cs.length 1 i0 x y cnt ang (some pid)).angle i
      rw [List.filter_cons, if_pos h1, List.filter_eq_nil_iff.mpr
        (fun a ha => by
          have h2 := hlev a ha
          simp only [decide_eq_true_eq]
          omega)]
      rfl
    · rw [calc_leaf collapsed i l s d m cs 1 i0 x y cnt ang (some pid) hc,
        List.filter_cons, if_pos h1]
      rfl

theorem calcList_level1_filter :
    ∀ l : NodeList, ∀ collapsed (i0 : ℕ) (x y : ℝ) (cnt : ℕ) (ang : ℝ)
      (pid : String),
      (((calculatePositionsList collapsed l 1 i0 x y cnt ang pid).1.filter
          (fun e => decide (e.level = 1))).map LayoutEntry.id =
        l.headIds) ∧
      (((calculatePositionsList collapsed l 1 i0 x y cnt ang pid).1.filter
          (fun e => decide (e.level = 1))).map LayoutEntry.angle =
        (List.range' i0 l.length).map
          (fun (j : ℕ) => ((j : ℝ) / (cnt : ℝ)) * Real.pi * 2)) := by
  refine listInd _ ?_ ?_
  · intro collapsed i0 x y cnt ang pid
    rw [calcList_nil]
    exact ⟨rfl, rfl⟩
  · intro n t ih collapsed i0 x y cnt ang pid
    rw [calcList_cons]
    constructor
    · rw [List.filter_append, List.map_append,
        calc_filter_level1 collapsed n i0 x y cnt ang pid,
        List.map_singleton, layoutEntry_id,
        (ih collapsed (i0 + 1) x y cnt ang pid).1, headIds_cons]
      rfl
    · rw [List.filter_append, List.map_append,
        calc_filter_level1 collapsed n i0 x y cnt ang pid,
        List.map_singleton, layoutEntry_angle1,
        (ih collapsed (i0 + 1) x y cnt ang pid).2, length_cons,
        List.range'_succ i0 t.length 1, List.map_cons]
      rfl

theorem convert_level1_filter (root : MindmapNode) :
    (((convertMindmapToFlow root []).1.filter
        (fun e => decide (e.level = 1))).map LayoutEntry.id =
      root.children.headIds) ∧
    (((convertMindmapToFlow root []).1.filter
        (fun e => decide (e.level = 1))).map LayoutEntry.angle =
      (List.range root.children.length).map
        (fun (j : ℕ) => ((j : ℝ) / (root.children.length : ℝ)) * Real.pi * 2)) := by
  cases root with
  | mk i l s d m cs =>
    rw [convertMindmapToFlow]
    have h0 : (fun e => decide (e.level = 1))
        (layoutEntry i cs.length 0 0 0 0 1 0 none) = false := by
      show decide ((layoutEntry i cs.length 0 0 0 0 1 0 none).level = 1)
        = false
      rw [layoutEntry_level]
      rfl
    by_cases hc : 0 < cs.length ∧ i ∉ ([] : List String)
    · rw [calc_expand [] i l s d m cs 0 0 0 0 1 0 none hc,
        List.filter_cons, if_neg (by rw [layoutEntry_level]; decide),
        List.range_eq_range']
      exact ⟨(calcList_level1_filter cs [] 0 _ _ cs.length _ i).1,
        (calcList_level1_filter cs [] 0 _ _ cs.length _ i).2⟩
    · have hnil : cs = .nil := by
        cases cs with
        | nil => rfl
        | cons a b =>
          exact absurd ⟨Nat.succ_pos _, List.not_mem_nil i⟩ hc
      subst hnil
      rw [calc_leaf [] i l s d m .nil 0 0 0 0 1 0 none hc,
        List.filter_cons, if_neg (by rw [layoutEntry_level]; decide)]
      exact ⟨rfl, rfl⟩

theorem chain_entries :
    (convertMindmapToFlow chainDoc []).1 =
      [layoutEntry "r" 1 0 0 0 0 1 0 none,
       layoutEntry "a" 1 1 0 0 0 1 0 (some "r"),
       layoutEntry "b" 0 2 0
         (layoutEntry "a" 1 1 0 0 0 1 0 (some "r")).x
         (layoutEntry "a" 1 1 0 0 0 1 0 (some "r")).y 1
         (layoutEntry "a" 1 1 0 0 0 1 0 (some "r")).angle (some "a")] := by
  have hcr : (0 : ℕ) < (NodeList.cons (MindmapNode.mk "a" "" "" "" none
      (NodeList.cons (MindmapNode.mk "b" "" "" "" none .nil) .nil))
      .nil).length ∧ "r" ∉ ([] : List String) := by decide
  have hca : (0 : ℕ) < (NodeList.cons (MindmapNode.mk "b" "" "" "" none
      .nil) .nil).length ∧ "a" ∉ ([] : List String) := by decide
  have hcb : ¬((0 : ℕ) < (NodeList.nil : NodeList).length ∧
      "b" ∉ ([] : List String)) := by decide
  unfold convertMindmapToFlow chainDoc leafNode
  rw [calc_expand [] "r" "" "" "" none _ 0 0 0 0 1 0 none hcr,
    layoutEntry_x0, layoutEntry_y0, layoutEntry_angle0, calcList_cons,
    calc_expand [] "a" "" "" "" none _ 1 0 _ _ _ _ (some "r") hca,
    calcList_cons, calc_leaf [] "b" "" "" "" none .nil _ _ _ _ _ _ _ hcb,
    calcList_nil, calcList_nil]
  rfl

/-- C1: with an empty collapsed set the level-1 children of the root are
assigned the angles `2*pi*i/N` for `i = 0..N-1` (in child order), and on
the spec scenario document the children a, b, c sit at angles 0, 2*pi/3,
4*pi/3, all at radius 250 and at distance 250 from the origin, with
exactly the three edges r-a, r-b, r-c. -/
theorem C1_level1_uniform_circle :
    (∀ root : MindmapNode,
      ((convertMindmapToFlow root []).1.filter
          (fun e => decide (e.level = 1))).map LayoutEntry.id =
        root.children.headIds ∧
      ((convertMindmapToFlow root []).1.filter
          (fun e => decide (e.level = 1))).map LayoutEntry.angle =
        (List.range root.children.length).map
          (fun (j : ℕ) =>
            2 * Real.pi * (j : ℝ) / (root.children.length : ℝ))) ∧
    ((convertMindmapToFlow scenarioDoc []).1.filter
        (fun e => decide (e.level = 1))).map LayoutEntry.id =
      ["a", "b", "c"] ∧
    ((convertMindmapToFlow scenarioDoc []).1.filter
        (fun e => decide (e.level = 1))).map LayoutEntry.angle =
      [0, 2 * Real.pi / 3, 4 * Real.pi / 3] ∧
    ((convertMindmapToFlow scenarioDoc []).1.filter
        (fun e => decide (e.level = 1))).map LayoutEntry.radius =
      [250, 250, 250] ∧
    ((convertMindmapToFlow scenarioDoc []).1.filter
        (fun e => decide (e.level = 1))).map
        (fun e => Real.sqrt (e.x ^ 2 + e.y ^ 2)) = [250, 250, 250] ∧
    (convertMindmapToFlow scenarioDoc []).2.map
        (fun e => (e.source, e.target)) =
      [("r", "a"), ("r", "b"), ("r", "c")] := by
  have hfmem : ∀ e ∈ (convertMindmapToFlow scenarioDoc []).1.filter
      (fun e => decide (e.level = 1)),
      e ∈ (convertMindmapToFlow scenarioDoc []).1 ∧ e.level = 1 := by
    intro e he
    rw [List.mem_filter, decide_eq_true_eq] at he
    exact he
  have hrad : ∀ e ∈ (convertMindmapToFlow scenarioDoc []).1.filter
      (fun e => decide (e.level = 1)), e.radius = 250 := by
    intro e he
    obtain ⟨hmem, hlvl⟩ := hfmem e he
    rw [convertMindmapToFlow] at hmem
    have hinv := calc_invariant.1 scenarioDoc [] 0 0 0 0 1 0 none e hmem
    have h250 := (hinv.2 (by omega)).1
    rw [hlvl] at h250
    rw [h250, BASE_RADIUS, LEVEL_SCALE]
    norm_num
  have hlen : ((convertMindmapToFlow scenarioDoc []).1.filter
      (fun e => decide (e.level = 1))).length = 3 := by
    have hid := (convert_level1_filter scenarioDoc).1
    have := congrArg List.length hid
    rw [List.length_map] at this
    rw [this]
    decide
  refine ⟨?_, ?_, ?_, ?_, ?_, ?_⟩
  · intro root
    refine ⟨(convert_level1_filter root).1, ?_⟩
    rw [(convert_level1_filter root).2]
    exact List.map_congr_left fun j _ => by ring
  · exact (convert_level1_filter scenarioDoc).1.trans (by decide)
  · rw [(convert_level1_filter scenarioDoc).2,
      (by decide : scenarioDoc.children.length = 3),
      (by decide : List.range 3 = [0, 1, 2])]
    rw [List.map_cons, List.map_cons, List.map_cons, List.map_nil]
    norm_num
    constructor
    · ring
    · ring
  · rw [List.map_congr_left hrad, List.map_const', hlen]
    rfl
  · have hd : ∀ e ∈ (convertMindmapToFlow scenarioDoc []).1.filter
        (fun e => decide (e.level = 1)),
        Real.sqrt (e.x ^ 2 + e.y ^ 2) = 250 := by
      intro e he
      obtain ⟨hmem, hlvl⟩ := hfmem e he
      obtain ⟨hpx, hpy⟩ := level1_at_origin scenarioDoc [] e hmem hlvl
      have hr := hrad e he
      rw [convertMindmapToFlow] at hmem
      have hinv := calc_invariant.1 scenarioDoc [] 0 0 0 0 1 0 none e hmem
      obtain ⟨_, hx, hy, _, _⟩ := hinv.2 (by omega)
      rw [hx, hy, hpx, hpy, hr, zero_add, zero_add]
      exact polar_sqrt e.angle 250 (by norm_num)
    rw [List.map_congr_left hd, List.map_const', hlen]
    rfl
  · rw [convertMindmapToFlow]
    exact (calc_edges.1 scenarioDoc [] 0 0 0 0 1 0 none).trans (by decide)

/-- C2: every node at level L greater than 0 lies at distance
`BASE_RADIUS * LEVEL_SCALE^(L-1)` from its parent's position (the parent
entry exists in the layout and its position is the recorded parent
position), and the per-level radius shrinks strictly with depth. -/
theorem C2_radius_geometric (root : MindmapNode) (collapsed : List String) :
    (∀ e ∈ (convertMindmapToFlow root collapsed).1, 1 ≤ e.level →
      e.radius = BASE_RADIUS * LEVEL_SCALE ^ (e.level - 1) ∧
      Real.sqrt ((e.x - e.px) ^ 2 + (e.y - e.py) ^ 2) = e.radius ∧
      ∃ pe ∈ (convertMindmapToFlow root collapsed).1,
        some pe.id = e.parentId ∧ pe.x = e.px ∧ pe.y = e.py) ∧
    (∀ e1 ∈ (convertMindmapToFlow root collapsed).1,
      ∀ e2 ∈ (convertMindmapToFlow root collapsed).1,
        1 ≤ e1.level → e1.level < e2.level → e2.radius < e1.radius) := by
  have hradius : ∀ e ∈ (convertMindmapToFlow root collapsed).1,
      1 ≤ e.level → e.radius = BASE_RADIUS * LEVEL_SCALE ^ (e.level - 1) := by
    intro e he hl
    rw [convertMindmapToFlow] at he
    exact ((calc_invariant.1 root collapsed 0 0 0 0 1 0 none e he).2 hl).1
  constructor
  · intro e he hl
    refine ⟨hradius e he hl, ?_, ?_⟩
    · have he' := he
      rw [convertMindmapToFlow] at he'
      obtain ⟨hr, hx, hy, _, _⟩ :=
        (calc_invariant.1 root collapsed 0 0 0 0 1 0 none e he').2 hl
      have hxa : e.x - e.px = Real.cos e.angle * e.radius := by
        rw [hx]; ring
      have hya : e.y - e.py = Real.sin e.angle * e.radius := by
        rw [hy]; ring
      rw [hxa, hya]
      refine polar_sqrt e.angle e.radius ?_
      rw [hr, BASE_RADIUS, LEVEL_SCALE]
      positivity
    · have he' := he
      rw [convertMindmapToFlow] at he'
      rcases calc_linked.1 root collapsed 0 0 0 0 1 0 none e he' with
        ⟨hlvl, _⟩ | ⟨pe, hpe, hid, _, hx, hy, _, _⟩
      · omega
      · refine ⟨pe, ?_, hid, hx, hy⟩
        rw [convertMindmapToFlow]
        exact hpe
  · intro e1 he1 e2 he2 hl1 hlt
    rw [hradius e1 he1 hl1, hradius e2 he2 (by omega), BASE_RADIUS,
      LEVEL_SCALE]
    have hexp : e1.level - 1 < e2.level - 1 := by omega
    have hpow : (0.85 : ℝ) ^ (e2.level - 1) < 0.85 ^ (e1.level - 1) :=
      pow_lt_pow_right_of_lt_one₀ (by norm_num) (by norm_num) hexp
    nlinarith [hpow]

theorem C2_radius_witness :
    (layoutEntry "a" 1 1 0 0 0 1 0 (some "r")) ∈
      (convertMindmapToFlow chainDoc []).1 ∧
    (layoutEntry "b" 0 2 0
      (layoutEntry "a" 1 1 0 0 0 1 0 (some "r")).x
      (layoutEntry "a" 1 1 0 0 0 1 0 (some "r")).y 1
      (layoutEntry "a" 1 1 0 0 0 1 0 (some "r")).angle (some "a")).radius <
      (layoutEntry "a" 1 1 0 0 0 1 0 (some "r")).radius := by
  have hma : (layoutEntry "a" 1 1 0 0 0 1 0 (some "r")) ∈
      (convertMindmapToFlow chainDoc []).1 := by
    rw [chain_entries]
    exact List.mem_cons_of_mem _ (List.mem_cons_self _ _)
  have hmb : (layoutEntry "b" 0 2 0
      (layoutEntry "a" 1 1 0 0 0 1 0 (some "r")).x
      (layoutEntry "a" 1 1 0 0 0 1 0 (some "r")).y 1
      (layoutEntry "a" 1 1 0 0 0 1 0 (some "r")).angle (some "a")) ∈
      (convertMindmapToFlow chainDoc []).1 := by
    rw [chain_entries]
    exact List.mem_cons_of_mem _
      (List.mem_cons_of_mem _ (List.mem_cons_self _ _))
  have h1 : (1 : ℕ) ≤ (layoutEntry "a" 1 1 0 0 0 1 0 (some "r")).level := by
    rw [layoutEntry_level]
  have h2 : (layoutEntry "a" 1 1 0 0 0 1 0 (some "r")).level <
      (layoutEntry "b" 0 2 0
        (layoutEntry "a" 1 1 0 0 0 1 0 (some "r")).x
        (layoutEntry "a" 1 1 0 0 0 1 0 (some "r")).y 1
        (layoutEntry "a" 1 1 0 0 0 1 0 (some "r")).angle
        (some "a")).level := by
    rw [layoutEntry_level, layoutEntry_level]
    norm_num
  exact ⟨hma, (C2_radius_geometric chainDoc []).2 _ hma _ hmb h1 h2⟩

/-- C3: every entry at level greater-equal 2 has its parent entry in the
layout (with matching angle and child count); an only child inherits the
parent's angle exactly, and otherwise the siblings are evenly spaced over
`[parentAngle - angleSpan/2, parentAngle + angleSpan/2]` with
`angleSpan = min(1.6*pi, siblingCount * 180 / radius)` at that level's
radius. -/
theorem C3_fan_distribution (root : MindmapNode) (collapsed : List String) :
    ∀ e ∈ (convertMindmapToFlow root collapsed).1, 2 ≤ e.level →
      (∃ pe ∈ (convertMindmapToFlow root collapsed).1,
        some pe.id = e.parentId ∧ pe.angle = e.parentAngle ∧
        pe.childCount = e.siblingCount) ∧
      fanSpan e.siblingCount e.radius =
        min (Real.pi * 1.6)
          ((e.siblingCount : ℝ) * 180 / e.radius) ∧
      (e.siblingCount = 1 → e.angle = e.parentAngle) ∧
      (e.siblingCount ≠ 1 →
        e.angle = (e.parentAngle - fanSpan e.siblingCount e.radius / 2) +
          ((e.index : ℝ) / ((e.siblingCount : ℝ) - 1)) *
            fanSpan e.siblingCount e.radius) ∧
      e.radius = BASE_RADIUS * LEVEL_SCALE ^ (e.level - 1) := by
  intro e he hl
  have he' := he
  rw [convertMindmapToFlow] at he'
  have hinv := (calc_invariant.1 root collapsed 0 0 0 0 1 0 none e he').2
    (by omega)
  obtain ⟨hr, _, _, _, hfan⟩ := hinv
  refine ⟨?_, ?_, (hfan hl).1, (hfan hl).2, hr⟩
  · rcases calc_linked.1 root collapsed 0 0 0 0 1 0 none e he' with
      ⟨hlvl, _⟩ | ⟨pe, hpe, hid, hang, _, _, hcc, _⟩
    · omega
    · refine ⟨pe, ?_, hid, hang, hcc⟩
      rw [convertMindmapToFlow]
      exact hpe
  · rw [fanSpan, MAX_ANGLE_SPAN, MIN_SPACING, mul_div_assoc]

theorem C3_fan_witness :
    (layoutEntry "b" 0 2 0
      (layoutEntry "a" 1 1 0 0 0 1 0 (some "r")).x
      (layoutEntry "a" 1 1 0 0 0 1 0 (some "r")).y 1
      (layoutEntry "a" 1 1 0 0 0 1 0 (some "r")).angle (some "a")).angle =
    (layoutEntry "b" 0 2 0
      (layoutEntry "a" 1 1 0 0 0 1 0 (some "r")).x
      (layoutEntry "a" 1 1 0 0 0 1 0 (some "r")).y 1
      (layoutEntry "a" 1 1 0 0 0 1 0 (some "r")).angle
      (some "a")).parentAngle := by
  have hmb : (layoutEntry "b" 0 2 0
      (layoutEntry "a" 1 1 0 0 0 1 0 (some "r")).x
      (layoutEntry "a" 1 1 0 0 0 1 0 (some "r")).y 1
      (layoutEntry "a" 1 1 0 0 0 1 0 (some "r")).angle (some "a")) ∈
      (convertMindmapToFlow chainDoc []).1 := by
    rw [chain_entries]
    exact List.mem_cons_of_mem _
      (List.mem_cons_of_mem _ (List.mem_cons_self _ _))
  exact (C3_fan_distribution chainDoc [] _ hmb
    (by rw [layoutEntry_level])).2.2.1 (by rw [layoutEntry_siblingCount])

/-! ## Collapse-visibility lemmas -/

@[simp] theorem visibleIds_mk (collapsed i l s d m cs) :
    visibleIds collapsed (.mk i l s d m cs) =
      i :: (if 0 < cs.length ∧ i ∉ collapsed
            then visibleIdsList collapsed cs else []) := rfl

@[simp] theorem visibleIdsList_nil (collapsed) :
    visibleIdsList collapsed .nil = [] := rfl

@[simp] theorem visibleIdsList_cons (collapsed h t) :
    visibleIdsList collapsed (.cons h t) =
      visibleIds collapsed h ++ visibleIdsList collapsed t := rfl

@[simp] theorem visibleEdgesList_nil (collapsed p) :
    visibleEdgesList collapsed p .nil = [] := rfl

@[simp] theorem visibleEdgesList_cons (collapsed p h t) :
    visibleEdgesList collapsed p (.cons h t) =
      visibleEdges collapsed (some p) h ++ visibleEdgesList collapsed p t :=
  rfl

theorem length_pos_of_mem_toList {l : NodeList} {c : MindmapNode}
    (hc : c ∈ l.toList) : 0 < l.length := by
  cases l with
  | nil => simp at hc
  | cons h t => exact Nat.succ_pos _

theorem visibleIds_sub_list (collapsed : List String) :
    ∀ l : NodeList, ∀ m ∈ l.toList,
      visibleIds collapsed m ⊆ visibleIdsList collapsed l := by
  refine listInd _ ?_ ?_
  · intro m hm; simp at hm
  · intro n t ih m hm
    rw [toList_cons, List.mem_cons] at hm
    rcases hm with rfl | hm
    · intro a ha; exact List.mem_append_left _ ha
    · intro a ha; exact List.mem_append_right _ (ih m hm ha)

theorem visibleEdges_sub_list (collapsed : List String) (p : String) :
    ∀ l : NodeList, ∀ m ∈ l.toList,
      visibleEdges collapsed (some p) m ⊆ visibleEdgesList collapsed p l := by
  refine listInd _ ?_ ?_
  · intro m hm; simp at hm
  · intro n t ih m hm
    rw [toList_cons, List.mem_cons] at hm
    rcases hm with rfl | hm
    · intro a ha; exact List.mem_append_left _ ha
    · intro a ha; exact List.mem_append_right _ (ih m hm ha)

theorem visibleIds_subset_ids :
    (∀ n : MindmapNode, ∀ collapsed,
      visibleIds collapsed n ⊆ n.ids) ∧
    (∀ l : NodeList, ∀ collapsed,
      visibleIdsList collapsed l ⊆ l.idsList) := by
  refine treeInd _ _ ?_ ?_ ?_
  · intro i l s d m cs ih collapsed a ha
    rw [visibleIds_mk, List.mem_cons] at ha
    rw [ids_mk, List.mem_cons]
    rcases ha with rfl | ha
    · exact Or.inl rfl
    · split at ha
      · exact Or.inr (ih collapsed ha)
      · simp at ha
  · intro collapsed a ha
    simp at ha
  · intro n t ihn iht collapsed a ha
    rw [visibleIdsList_cons, List.mem_append] at ha
    rw [idsList_cons, List.mem_append]
    rcases ha with ha | ha
    · exact Or.inl (ihn collapsed ha)
    · exact Or.inr (iht collapsed ha)

theorem edge_of_child (collapsed : List String) (i : String)
    (hi : i ≠ "") :
    ∀ l : NodeList, ∀ ch ∈ l.toList,
      (i, ch.id) ∈ visibleEdgesList collapsed i l := by
  refine listInd _ ?_ ?_
  · intro ch hch; simp at hch
  · intro n t ih ch hch
    rw [toList_cons, List.mem_cons] at hch
    rw [visibleEdgesList_cons, List.mem_append]
    rcases hch with rfl | hch
    · left
      cases ch with
      | mk j jl js jd jm jcs =>
        rw [visibleEdges_some, if_neg hi]
        exact List.mem_append_left _ (List.mem_singleton.mpr rfl)
    · exact Or.inr (ih ch hch)

theorem occursVisible_mem (collapsed : List String) :
    ∀ {n X : MindmapNode}, OccursVisible collapsed n X →
      X.id ∈ visibleIds collapsed n := by
  intro n X h
  induction h with
  | refl n =>
    cases n with
    | mk i l s d m cs => rw [visibleIds_mk]; exact List.mem_cons_self _ _
  | step n ch X hch hnc hrec ih =>
    cases n with
    | mk i l s d m cs =>
      rw [children_mk] at hch
      have hc : 0 < cs.length ∧ i ∉ collapsed :=
        ⟨length_pos_of_mem_toList hch, hnc⟩
      rw [visibleIds_mk, if_pos hc]
      exact List.mem_cons_of_mem _
        (visibleIds_sub_list collapsed cs ch hch ih)

theorem occursVisible_edge (collapsed : List String) :
    ∀ {n X : MindmapNode}, OccursVisible collapsed n X →
      nonEmptyIds n → X ≠ n →
      ∃ p, OccursVisible collapsed n p ∧ X ∈ p.children.toList ∧
        ∀ pid, (p.id, X.id) ∈ visibleEdges collapsed pid n := by
  intro n X h
  induction h with
  | refl n => intro _ hne; exact absurd rfl hne
  | step n ch X hch hnc hrec ih =>
    intro hids _
    cases n with
    | mk i l s d m cs =>
      rw [children_mk] at hch
      have hc : 0 < cs.length ∧ i ∉ collapsed :=
        ⟨length_pos_of_mem_toList hch, hnc⟩
      have hi : i ≠ "" := hids i (by rw [ids_mk]; exact List.mem_cons_self _ _)
      by_cases hXch : X = ch
      · subst hXch
        refine ⟨MindmapNode.mk i l s d m cs, .refl _, ?_, ?_⟩
        · rw [children_mk]
          exact hch
        · intro pid
          cases pid with
          | none =>
            rw [visibleEdges_none, if_pos hc]
            exact edge_of_child collapsed i hi cs X hch
          | some p =>
            rw [visibleEdges_some, if_pos hc]
            exact List.mem_append_right _
              (edge_of_child collapsed i hi cs X hch)
      · have hids' : nonEmptyIds ch := by
          intro a ha
          refine hids a ?_
          rw [ids_mk]
          exact List.mem_cons_of_mem _ (ids_subset_of_mem_toList cs ch hch ha)
        obtain ⟨p, hp, hXp, hedge⟩ := ih hids' hXch
        have hstep : OccursVisible collapsed (MindmapNode.mk i l s d m cs)
            p := by
          refine .step _ ch p ?_ hnc hp
          rw [children_mk]
          exact hch
        refine ⟨p, hstep, hXp, ?_⟩
        intro pid
        have hmem := hedge (some i)
        have hsub := visibleEdges_sub_list collapsed i cs ch hch hmem
        cases pid with
        | none =>
          rw [visibleEdges_none, if_pos hc]
          exact hsub
        | some p' =>
          rw [visibleEdges_some, if_pos hc]
          exact List.mem_append_right _ hsub

theorem visibleEdges_endpoints :
    (∀ n : MindmapNode, ∀ collapsed pid,
      ∀ pr ∈ visibleEdges collapsed pid n,
        pr.2 ∈ visibleIds collapsed n ∧
        ((∃ p, pid = some p ∧ pr.1 = p) ∨
          pr.1 ∈ visibleIds collapsed n)) ∧
    (∀ l : NodeList, ∀ collapsed (p : String),
      ∀ pr ∈ visibleEdgesList collapsed p l,
        pr.2 ∈ visibleIdsList collapsed l ∧
        (pr.1 = p ∨ pr.1 ∈ visibleIdsList collapsed l)) := by
  refine treeInd _ _ ?_ ?_ ?_
  · intro i l s d m cs ih collapsed pid pr hpr
    cases pid with
    | none =>
      rw [visibleEdges_none] at hpr
      rw [visibleIds_mk]
      split at hpr
      · next hc =>
        obtain ⟨h2, h1⟩ := ih collapsed i pr hpr
        rw [if_pos hc]
        refine ⟨List.mem_cons_of_mem _ h2, Or.inr ?_⟩
        rcases h1 with h1 | h1
        · rw [h1]
          exact List.mem_cons_self _ _
        · exact List.mem_cons_of_mem _ h1
      · simp at hpr
    | some p =>
      rw [visibleEdges_some] at hpr
      rw [List.mem_append] at hpr
      rw [visibleIds_mk]
      rcases hpr with hpr | hpr
      · split at hpr
        · simp at hpr
        · rw [List.mem_singleton] at hpr
          subst hpr
          exact ⟨List.mem_cons_self _ _, Or.inl ⟨p, rfl, rfl⟩⟩
      · split at hpr
        · next hc =>
          obtain ⟨h2, h1⟩ := ih collapsed i pr hpr
          rw [if_pos hc]
          refine ⟨List.mem_cons_of_mem _ h2, Or.inr ?_⟩
          rcases h1 with h1 | h1
          · rw [h1]
            exact List.mem_cons_self _ _
          · exact List.mem_cons_of_mem _ h1
        · simp at hpr
  · intro collapsed p pr hpr
    simp at hpr
  · intro n t ihn iht collapsed p pr hpr
    rw [visibleEdgesList_cons, List.mem_append] at hpr
    rw [visibleIdsList_cons]
    rcases hpr with hpr | hpr
    · obtain ⟨h2, h1⟩ := ihn collapsed (some p) pr hpr
      refine ⟨List.mem_append_left _ h2, ?_⟩
      rcases h1 with ⟨q, hq, hq1⟩ | h1
      · left
        rw [hq1]
        exact (Option.some.inj hq).symm
      · exact Or.inr (List.mem_append_left _ h1)
    · obtain ⟨h2, h1⟩ := iht collapsed p pr hpr
      refine ⟨List.mem_append_right _ h2, ?_⟩
      rcases h1 with h1 | h1
      · exact Or.inl h1
      · exact Or.inr (List.mem_append_right _ h1)

theorem collapsed_excludes_desc :
    (∀ n : MindmapNode, uniqueIds n → ∀ collapsed,
      ∀ X ∈ n.subnodes, X.id ∈ collapsed →
      ∀ d ∈ X.children.idsList, d ∉ visibleIds collapsed n) ∧
    (∀ l : NodeList, l.idsList.Nodup → ∀ collapsed,
      ∀ X ∈ l.subnodesList, X.id ∈ collapsed →
      ∀ d ∈ X.children.idsList, d ∉ visibleIdsList collapsed l) := by
  refine treeInd _ _ ?_ ?_ ?_
  · intro i l s d m cs ih hu collapsed X hX hXc dd hdd
    rw [subnodes_mk, List.mem_cons] at hX
    rw [visibleIds_mk, List.mem_cons]
    rcases hX with rfl | hX
    · rw [id_mk] at hXc
      have hdcs : dd ∈ cs.idsList := by
        rw [children_mk] at hdd
        exact hdd
      rintro (rfl | hmem)
      · exact (List.nodup_cons.mp hu).1 hdcs
      · rw [if_neg (fun hc => hc.2 hXc)] at hmem
        simp at hmem
    · have hdcs : dd ∈ cs.idsList :=
        (subnode_ids_sublist.2 cs X hX).subset (childIds_subset_ids X hdd)
      rintro (rfl | hmem)
      · exact (List.nodup_cons.mp hu).1 hdcs
      · split at hmem
        · exact ih (List.nodup_cons.mp hu).2 collapsed X hX hXc dd hdd hmem
        · simp at hmem
  · intro _ collapsed X hX
    simp at hX
  · intro n t ihn iht hnd collapsed X hX hXc dd hdd
    rw [idsList_cons, List.nodup_append] at hnd
    obtain ⟨hn, ht, hdisj⟩ := hnd
    rw [subnodesList_cons, List.mem_append] at hX
    rw [visibleIdsList_cons, List.mem_append]
    rcases hX with hX | hX
    · have hdn : dd ∈ n.ids :=
        (subnode_ids_sublist.1 n X hX).subset (childIds_subset_ids X hdd)
      rintro (hmem | hmem)
      · exact ihn hn collapsed X hX hXc dd hdd hmem
      · exact hdisj hdn (visibleIds_subset_ids.2 t collapsed hmem)
    · have hdt : dd ∈ t.idsList :=
        (subnode_ids_sublist.2 t X hX).subset (childIds_subset_ids X hdd)
      rintro (hmem | hmem)
      · exact hdisj (visibleIds_subset_ids.1 n collapsed hmem) hdt
      · exact iht ht collapsed X hX hXc dd hdd hmem

/-- C4 (amended): for a tree with unique ids and a node X whose id is in
the collapsed set: when no strict ancestor of X is collapsed (the layout
traversal reaches X), X still receives a position, and — when X is not
the root and the document ids are non-empty — the edge parent-to-X is
still emitted; regardless, no id strictly inside X's subtree appears in
the returned positions or edges. -/
theorem C4_collapse_exclusion (root X : MindmapNode)
    (collapsed : List String) (huniq : uniqueIds root)
    (hXc : X.id ∈ collapsed) :
    (OccursVisible collapsed root X →
      X.id ∈ (convertMindmapToFlow root collapsed).1.map LayoutEntry.id) ∧
    (OccursVisible collapsed root X → X ≠ root → nonEmptyIds root →
      ∃ p, OccursVisible collapsed root p ∧ X ∈ p.children.toList ∧
        (p.id, X.id) ∈ (convertMindmapToFlow root collapsed).2.map
          (fun e => (e.source, e.target))) ∧
    (X ∈ root.subnodes → ∀ d ∈ X.children.idsList,
      d ∉ (convertMindmapToFlow root collapsed).1.map LayoutEntry.id ∧
      ∀ pr ∈ (convertMindmapToFlow root collapsed).2.map
          (fun e => (e.source, e.target)), pr.1 ≠ d ∧ pr.2 ≠ d) := by
  have hids : (convertMindmapToFlow root collapsed).1.map LayoutEntry.id =
      visibleIds collapsed root := by
    rw [convertMindmapToFlow]
    exact calc_ids.1 root collapsed 0 0 0 0 1 0 none
  have hedges : (convertMindmapToFlow root collapsed).2.map
      (fun e => (e.source, e.target)) =
      visibleEdges collapsed none root := by
    rw [convertMindmapToFlow]
    exact calc_edges.1 root collapsed 0 0 0 0 1 0 none
  refine ⟨?_, ?_, ?_⟩
  · intro hov
    rw [hids]
    exact occursVisible_mem collapsed hov
  · intro hov hne hnei
    obtain ⟨p, hp, hXp, hedge⟩ := occursVisible_edge collapsed hov hnei hne
    refine ⟨p, hp, hXp, ?_⟩
    rw [hedges]
    exact hedge none
  · intro hmem d hd
    have hnotvis := collapsed_excludes_desc.1 root huniq collapsed X hmem
      hXc d hd
    constructor
    · rw [hids]
      exact hnotvis
    · intro pr hpr
      rw [hedges] at hpr
      obtain ⟨h2, h1⟩ := visibleEdges_endpoints.1 root collapsed none pr hpr
      constructor
      · rintro rfl
        rcases h1 with ⟨q, hq, _⟩ | h1
        · exact Option.noConfusion hq
        · exact hnotvis h1
      · rintro rfl
        exact hnotvis h2

theorem C4_collapse_witness :
    uniqueIds chainDoc ∧
    (MindmapNode.mk "a" "" "" "" none
      (.cons (leafNode "b") .nil)).id ∈ (["a"] : List String) ∧
    (MindmapNode.mk "a" "" "" "" none (.cons (leafNode "b") .nil)).id ∈
      (convertMindmapToFlow chainDoc ["a"]).1.map LayoutEntry.id := by
  refine ⟨by decide, by decide, ?_⟩
  refine (C4_collapse_exclusion chainDoc
    (MindmapNode.mk "a" "" "" "" none (.cons (leafNode "b") .nil)) ["a"]
    (by decide) (by decide)).1 ?_
  refine .step chainDoc (MindmapNode.mk "a" "" "" "" none
    (.cons (leafNode "b") .nil)) _ ?_ (by decide) (.refl _)
  show _ ∈ chainDoc.children.toList
  decide

/-- C4 counterexample: (i) in the chain r-a-b with both "a" and "b"
collapsed, the node "b" has its id in the collapsed set but receives no
position (its collapsed ancestor "a" cuts the traversal); (ii) in the
document whose root id is the empty string, the collapsed non-root child
"x" is reached by the traversal but no parent-to-x edge is emitted (the
JavaScript guard `if (parentId)` is falsy for the empty string). -/
theorem C4_collapse_counterexample :
    (uniqueIds chainDoc ∧
      (∃ X ∈ chainDoc.subnodes, X.id = "b" ∧ X.id ∈ ["a", "b"]) ∧
      "b" ∉ (convertMindmapToFlow chainDoc ["a", "b"]).1.map
        LayoutEntry.id) ∧
    (uniqueIds emptyIdDoc ∧
      (∃ X ∈ emptyIdDoc.subnodes, X.id = "x" ∧ X.id ∈ ["x"] ∧
        X ≠ emptyIdDoc) ∧
      (convertMindmapToFlow emptyIdDoc ["x"]).2.map
        (fun e => (e.source, e.target)) = []) := by
  have hids1 : (convertMindmapToFlow chainDoc ["a", "b"]).1.map
      LayoutEntry.id = visibleIds ["a", "b"] chainDoc := by
    rw [convertMindmapToFlow]
    exact calc_ids.1 chainDoc ["a", "b"] 0 0 0 0 1 0 none
  have hedg : (convertMindmapToFlow emptyIdDoc ["x"]).2.map
      (fun e => (e.source, e.target)) =
      visibleEdges ["x"] none emptyIdDoc := by
    rw [convertMindmapToFlow]
    exact calc_edges.1 emptyIdDoc ["x"] 0 0 0 0 1 0 none
  refine ⟨⟨by decide, by decide, ?_⟩, by decide, by decide, ?_⟩
  · rw [hids1]
    decide
  · rw [hedg]
    decide

/-! ## Parent lookup lemmas -/

theorem id_mem_of_subnodesList {l : NodeList} {m : MindmapNode}
    (hm : m ∈ l.subnodesList) : m.id ∈ l.idsList :=
  (subnode_ids_sublist.2 l m hm).subset (id_mem_ids m)

theorem child_ids_inj :
    ∀ l : NodeList, l.idsList.Nodup → ∀ c ∈ l.toList, ∀ c' ∈ l.toList,
      ∀ a, a ∈ c.ids → a ∈ c'.ids → c = c' := by
  refine listInd _ ?_ ?_
  · intro _ c hc
    simp at hc
  · intro n t ih hnd c hc c' hc' a hac hac'
    rw [idsList_cons, List.nodup_append] at hnd
    obtain ⟨hn, ht, hdisj⟩ := hnd
    rw [toList_cons, List.mem_cons] at hc hc'
    rcases hc with rfl | hc <;> rcases hc' with rfl | hc'
    · rfl
    · exact absurd (hdisj hac (ids_subset_of_mem_toList t c' hc' hac')) id
    · exact absurd (hdisj hac' (ids_subset_of_mem_toList t c hc hac)) id
    · exact ih ht c hc c' hc' a hac hac'

theorem uniq_subnode_id :
    (∀ n : MindmapNode, uniqueIds n → ∀ m ∈ n.subnodes,
      ∀ m' ∈ n.subnodes, m.id = m'.id → m = m') ∧
    (∀ l : NodeList, l.idsList.Nodup → ∀ m ∈ l.subnodesList,
      ∀ m' ∈ l.subnodesList, m.id = m'.id → m = m') := by
  refine treeInd _ _ ?_ ?_ ?_
  · intro i l s d md cs ih hu m hm m' hm' hid
    have hnotin : i ∉ cs.idsList := (List.nodup_cons.mp hu).1
    rw [subnodes_mk, List.mem_cons] at hm hm'
    rcases hm with rfl | hm <;> rcases hm' with rfl | hm'
    · rfl
    · rw [id_mk] at hid
      exact (hnotin (hid ▸ id_mem_of_subnodesList hm')).elim
    · rw [id_mk] at hid
      exact (hnotin (hid ▸ id_mem_of_subnodesList hm)).elim
    · exact ih (List.nodup_cons.mp hu).2 m hm m' hm' hid
  · intro _ m hm
    simp at hm
  · intro n t ihn iht hnd m hm m' hm' hid
    rw [idsList_cons, List.nodup_append] at hnd
    obtain ⟨hn, ht, hdisj⟩ := hnd
    rw [subnodesList_cons, List.mem_append] at hm hm'
    rcases hm with hm | hm <;> rcases hm' with hm' | hm'
    · exact ihn hn m hm m' hm' hid
    · have h1 : m.id ∈ n.ids :=
        (subnode_ids_sublist.1 n m hm).subset (id_mem_ids m)
      have h2 : m'.id ∈ t.idsList := id_mem_of_subnodesList hm'
      exact (hdisj h1 (hid ▸ h2)).elim
    · have h1 : m'.id ∈ n.ids :=
        (subnode_ids_sublist.1 n m' hm').subset (id_mem_ids m')
      have h2 : m.id ∈ t.idsList := id_mem_of_subnodesList hm
      exact (hdisj (hid ▸ h1) h2).elim
    · exact iht ht m hm m' hm' hid

theorem exists_parent :
    (∀ n : MindmapNode, ∀ X ∈ n.subnodes, X ≠ n →
      ∃ p ∈ n.subnodes, X ∈ p.children.toList) ∧
    (∀ l : NodeList, ∀ X ∈ l.subnodesList,
      X ∈ l.toList ∨ ∃ p ∈ l.subnodesList, X ∈ p.children.toList) := by
  refine treeInd _ _ ?_ ?_ ?_
  · intro i l s d md cs ih X hX hne
    rw [subnodes_mk, List.mem_cons] at hX
    rcases hX with rfl | hX
    · exact absurd rfl hne
    · rcases ih X hX with hX' | ⟨p, hp, hXp⟩
      · refine ⟨MindmapNode.mk i l s d md cs, mem_subnodes_self _, ?_⟩
        rw [children_mk]
        exact hX'
      · exact ⟨p, by rw [subnodes_mk]; exact List.mem_cons_of_mem _ hp, hXp⟩
  · intro X hX
    simp at hX
  · intro n t ihn iht X hX
    rw [subnodesList_cons, List.mem_append] at hX
    rcases hX with hX | hX
    · by_cases hXn : X = n
      · subst hXn
        left
        rw [toList_cons]
        exact List.mem_cons_self _ _
      · obtain ⟨p, hp, hXp⟩ := ihn X hX hXn
        refine Or.inr ⟨p, ?_, hXp⟩
        rw [subnodesList_cons]
        exact List.mem_append_left _ hp
    · rcases iht X hX with hX' | ⟨p, hp, hXp⟩
      · left
        rw [toList_cons]
        exact List.mem_cons_of_mem _ hX'
      · refine Or.inr ⟨p, ?_, hXp⟩
        rw [subnodesList_cons]
        exact List.mem_append_right _ hp

theorem desc_id_not_self (X : MindmapNode) (hu : uniqueIds X) :
    ∀ q ∈ X.subnodes, ∀ a ∈ q.children.idsList, a ≠ X.id := by
  intro q hq a ha hax
  cases X with
  | mk i l s d md cs =>
    rw [id_mk] at hax
    subst hax
    have hnotin : a ∉ cs.idsList := (List.nodup_cons.mp hu).1
    rw [subnodes_mk, List.mem_cons] at hq
    rcases hq with rfl | hq
    · rw [children_mk] at ha
      exact hnotin ha
    · exact hnotin ((subnode_ids_sublist.2 cs q hq).subset
        (childIds_subset_ids q ha))

theorem no_parent_of_root (n : MindmapNode) (hu : uniqueIds n) :
    ∀ p ∈ n.subnodes, n ∉ p.children.toList := by
  intro p hp hmem
  exact desc_id_not_self n hu p hp n.id
    ((ids_subset_of_mem_toList p.children n hmem) (id_mem_ids n)) rfl

theorem uniq_parent :
    (∀ n : MindmapNode, uniqueIds n → ∀ p ∈ n.subnodes, ∀ q ∈ n.subnodes,
      ∀ X, X ∈ p.children.toList → X ∈ q.children.toList → p = q) ∧
    (∀ l : NodeList, l.idsList.Nodup → ∀ p ∈ l.subnodesList,
      ∀ q ∈ l.subnodesList,
      ∀ X, X ∈ p.children.toList → X ∈ q.children.toList → p = q) := by
  have key : ∀ (i l s d : String) (md : Option Metadata) (cs : NodeList),
      uniqueIds (MindmapNode.mk i l s d md cs) →
      ∀ q ∈ cs.subnodesList, ∀ X, X ∈ cs.toList →
        X ∈ q.children.toList → False := by
    intro i l s d md cs hu q hq X hXcs hXq
    have hnd : cs.idsList.Nodup := (List.nodup_cons.mp hu).2
    obtain ⟨cq, hcq, hqin⟩ := (mem_subnodesList_iff cs q).mp hq
    have hXid_q : X.id ∈ q.children.idsList :=
      ids_subset_of_mem_toList q.children X hXq (id_mem_ids X)
    have hXid_cq : X.id ∈ cq.ids :=
      (subnode_ids_sublist.1 cq q hqin).subset
        (childIds_subset_ids q hXid_q)
    have hXeq : X = cq :=
      child_ids_inj cs hnd X hXcs cq hcq X.id (id_mem_ids X) hXid_cq
    subst hXeq
    have hXsub : X ∈ cs.subnodesList :=
      (mem_subnodesList_iff cs X).mpr ⟨X, hXcs, mem_subnodes_self X⟩
    have huX : uniqueIds X :=
      (subnode_ids_sublist.2 cs X hXsub).nodup hnd
    exact desc_id_not_self X huX q hqin X.id hXid_q rfl
  refine treeInd _ _ ?_ ?_ ?_
  · intro i l s d md cs ih hu p hp q hq X hXp hXq
    rw [subnodes_mk, List.mem_cons] at hp hq
    rcases hp with rfl | hp <;> rcases hq with rfl | hq
    · rfl
    · rw [children_mk] at hXp
      exact absurd (key i l s d md cs hu q hq X hXp hXq) id
    · rw [children_mk] at hXq
      exact absurd (key i l s d md cs hu p hp X hXq hXp) id
    · exact ih (List.nodup_cons.mp hu).2 p hp q hq X hXp hXq
  · intro _ p hp
    simp at hp
  · intro n t ihn iht hnd p hp q hq X hXp hXq
    rw [idsList_cons, List.nodup_append] at hnd
    obtain ⟨hn, ht, hdisj⟩ := hnd
    rw [subnodesList_cons, List.mem_append] at hp hq
    have hsame : ∀ a ∈ n.subnodes, ∀ b ∈ t.subnodesList,
        X ∈ a.children.toList → X ∈ b.children.toList → False := by
      intro a ha b hb hXa hXb
      have h1 : X.id ∈ n.ids :=
        (subnode_ids_sublist.1 n a ha).subset (childIds_subset_ids a
          (ids_subset_of_mem_toList a.children X hXa (id_mem_ids X)))
      have h2 : X.id ∈ t.idsList :=
        (subnode_ids_sublist.2 t b hb).subset (childIds_subset_ids b
          (ids_subset_of_mem_toList b.children X hXb (id_mem_ids X)))
      exact hdisj h1 h2
    rcases hp with hp | hp <;> rcases hq with hq | hq
    · exact ihn hn p hp q hq X hXp hXq
    · exact absurd (hsame p hp q hq hXp hXq) id
    · exact absurd (hsame q hq p hp hXq hXp) id
    · exact iht ht p hp q hq X hXp hXq

theorem findParent_miss :
    (∀ n : MindmapNode, ∀ tid par, tid ∉ n.ids →
      findParent n tid par = none) ∧
    (∀ l : NodeList, ∀ tid cur, tid ∉ l.idsList →
      findParentList l tid cur = none) := by
  refine treeInd _ _ ?_ ?_ ?_
  · intro i l s d md cs ih tid par hmem
    rw [ids_mk, List.mem_cons] at hmem
    push_neg at hmem
    rw [findParent, if_neg (fun hh : i = tid => hmem.1 hh.symm)]
    exact ih tid _ hmem.2
  · intro tid cur _
    rw [findParentList]
  · intro n t ihn iht tid cur hmem
    rw [idsList_cons, List.mem_append] at hmem
    push_neg at hmem
    rw [findParentList, ihn tid (some cur) hmem.1]
    exact iht tid cur hmem.2

theorem findParent_self (n : MindmapNode) (par : Option MindmapNode) :
    findParent n n.id par = par := by
  cases n with
  | mk i l s d md cs =>
    rw [id_mk, findParent, if_pos rfl]

theorem findParent_finds :
    (∀ n : MindmapNode, uniqueIds n → ∀ X ∈ n.subnodes, X ≠ n → ∀ par,
      ∃ p, findParent n X.id par = some p ∧ p ∈ n.subnodes ∧
        X ∈ p.children.toList) ∧
    (∀ l : NodeList, l.idsList.Nodup → ∀ X ∈ l.subnodesList, ∀ cur,
      ∃ p, findParentList l X.id cur = some p ∧
        ((X ∈ l.toList ∧ p = cur) ∨
          (p ∈ l.subnodesList ∧ X ∈ p.children.toList))) := by
  refine treeInd _ _ ?_ ?_ ?_
  · intro i l s d md cs ih hu X hX hne par
    rw [subnodes_mk, List.mem_cons] at hX
    rcases hX with rfl | hX
    · exact absurd rfl hne
    · have hXid : X.id ∈ cs.idsList := id_mem_of_subnodesList hX
      have hine : ¬i = X.id := fun hh =>
        (List.nodup_cons.mp hu).1 (hh ▸ hXid)
      rw [findParent, if_neg hine]
      obtain ⟨p, hfp, hcase⟩ := ih (List.nodup_cons.mp hu).2 X hX
        (MindmapNode.mk i l s d md cs)
      refine ⟨p, hfp, ?_⟩
      rcases hcase with ⟨hXcs, rfl⟩ | ⟨hp, hXp⟩
      · refine ⟨mem_subnodes_self _, ?_⟩
        rw [children_mk]
        exact hXcs
      · exact ⟨by rw [subnodes_mk]; exact List.mem_cons_of_mem _ hp, hXp⟩
  · intro _ X hX
    simp at hX
  · intro n t ihn iht hnd X hX cur
    rw [idsList_cons, List.nodup_append] at hnd
    obtain ⟨hn, ht, hdisj⟩ := hnd
    rw [subnodesList_cons, List.mem_append] at hX
    rcases hX with hX | hX
    · by_cases hXn : X = n
      · subst hXn
        rw [findParentList, findParent_self]
        refine ⟨cur, rfl, Or.inl ⟨?_, rfl⟩⟩
        rw [toList_cons]
        exact List.mem_cons_self _ _
      · obtain ⟨p, hfp, hp, hXp⟩ := ihn hn X hX hXn (some cur)
        rw [findParentList, hfp]
        refine ⟨p, rfl, Or.inr ⟨?_, hXp⟩⟩
        rw [subnodesList_cons]
        exact List.mem_append_left _ hp
    · have hXid : X.id ∈ t.idsList := id_mem_of_subnodesList hX
      have hmiss : X.id ∉ n.ids := fun hmem => hdisj hmem hXid
      rw [findParentList, findParent_miss.1 n X.id (some cur) hmiss]
      obtain ⟨p, hfp, hcase⟩ := iht ht X hX cur
      rw [hfp]
      refine ⟨p, rfl, ?_⟩
      rcases hcase with ⟨hXt, rfl⟩ | ⟨hp, hXp⟩
      · refine Or.inl ⟨?_, rfl⟩
        rw [toList_cons]
        exact List.mem_cons_of_mem _ hXt
      · refine Or.inr ⟨?_, hXp⟩
        rw [subnodesList_cons]
        exact List.mem_append_right _ hp

theorem mem_insertChildIds :
    ∀ l : NodeList, ∀ (s : Finset String) (y : String),
      y ∈ insertChildIds l s ↔ y ∈ l.headIds ∨ y ∈ s := by
  refine listInd _ ?_ ?_
  · intro s y
    simp [insertChildIds]
  · intro n t ih s y
    show y ∈ insertChildIds t (insert n.id s) ↔ _
    rw [ih (insert n.id s) y]
    simp only [headIds_cons, List.mem_cons, Finset.mem_insert]
    tauto

/-- C7: clicking a node of a document with unique ids toggles the node id's
membership in the collapsed set exactly when the node has one or more
children (and changes no other id's membership), selects the node, opens
the side panel, and recomputes the highlighted set to exactly the node's
id, its direct children's ids, and its parent's id when a parent exists. -/
theorem C7_node_click (st : AppState) (X : MindmapNode)
    (hu : uniqueIds st.mindmapRoot) (hX : X ∈ st.mindmapRoot.subnodes) :
    ((X.id ∈ (onNodeClickTrans st X).collapsedNodes ↔
        X.id ∉ st.collapsedNodes) ↔ 0 < X.children.length) ∧
    (∀ y, y ≠ X.id →
      (y ∈ (onNodeClickTrans st X).collapsedNodes ↔
        y ∈ st.collapsedNodes)) ∧
    (onNodeClickTrans st X).selectedNodeId = some X.id ∧
    (onNodeClickTrans st X).showSidePanel = true ∧
    (∀ y, y ∈ (onNodeClickTrans st X).highlightedNodes ↔
      y = X.id ∨ y ∈ X.children.headIds ∨
        ∃ p ∈ st.mindmapRoot.subnodes,
          X ∈ p.children.toList ∧ y = p.id) := by
  have hcol : (onNodeClickTrans st X).collapsedNodes =
      (if 0 < X.children.length then
        (if X.id ∈ st.collapsedNodes then st.collapsedNodes.erase X.id
         else insert X.id st.collapsedNodes)
       else st.collapsedNodes) := rfl
  have hna : (onNodeClickTrans st X).highlightedNodes =
      (match findParent st.mindmapRoot X.id none with
       | some parent => insert parent.id (insertChildIds X.children {X.id})
       | none => insertChildIds X.children {X.id}) := rfl
  refine ⟨?_, ?_, rfl, ?_, ?_⟩
  · rw [hcol]
    by_cases hc : 0 < X.children.length
    · rw [if_pos hc]
      simp only [hc, iff_true]
      by_cases hm : X.id ∈ st.collapsedNodes
      · rw [if_pos hm]
        simp [Finset.mem_erase, hm]
      · rw [if_neg hm]
        simp [Finset.mem_insert, hm]
    · rw [if_neg hc]
      simp only [hc, iff_false]
      intro h
      by_cases hm : X.id ∈ st.collapsedNodes
      · exact (h.mp hm) hm
      · exact hm (h.mpr hm)
  · intro y hy
    rw [hcol]
    split_ifs with h1 h2
    · simp [Finset.mem_erase, hy]
    · simp [Finset.mem_insert, hy]
    · rfl
  · show (if ¬(st.selectedNodeId = some X.id) ∨ ¬st.showSidePanel then true
      else st.showSidePanel) = true
    split
    · rfl
    · next h =>
        push_neg at h
        exact h.2
  · intro y
    by_cases hroot : X = st.mindmapRoot
    · have hfp : findParent st.mindmapRoot X.id none = none := by
        rw [hroot]
        exact findParent_self st.mindmapRoot none
      rw [hna, hfp]
      show y ∈ insertChildIds X.children {X.id} ↔ _
      rw [mem_insertChildIds, Finset.mem_singleton]
      constructor
      · rintro (hin | rfl)
        · exact Or.inr (Or.inl hin)
        · exact Or.inl rfl
      · rintro (rfl | hin | ⟨p, hp, hXp, rfl⟩)
        · exact Or.inr rfl
        · exact Or.inl hin
        · exact absurd (hroot ▸ hXp) (no_parent_of_root st.mindmapRoot hu p hp)
    · obtain ⟨p0, hfp, hp0, hXp0⟩ :=
        findParent_finds.1 st.mindmapRoot hu X hX hroot none
      rw [hna, hfp]
      show y ∈ insert p0.id (insertChildIds X.children {X.id}) ↔ _
      rw [Finset.mem_insert, mem_insertChildIds, Finset.mem_singleton]
      constructor
      · rintro (rfl | hin | rfl)
        · exact Or.inr (Or.inr ⟨p0, hp0, hXp0, rfl⟩)
        · exact Or.inr (Or.inl hin)
        · exact Or.inl rfl
      · rintro (rfl | hin | ⟨p, hp, hXp, rfl⟩)
        · exact Or.inr (Or.inr rfl)
        · exact Or.inr (Or.inl hin)
        · have hpe : p = p0 :=
            uniq_parent.1 st.mindmapRoot hu p hp p0 hp0 X hXp hXp0
          exact Or.inl (by rw [hpe])

theorem C7_node_click_witness :
    uniqueIds chainDoc ∧
    (onNodeClickTrans (AppState.mk chainDoc ∅ none false ∅)
      (MindmapNode.mk "a" "" "" "" none
        (NodeList.cons (leafNode "b") NodeList.nil))).selectedNodeId =
      some "a" ∧
    (onNodeClickTrans (AppState.mk chainDoc ∅ none false ∅)
      (MindmapNode.mk "a" "" "" "" none
        (NodeList.cons (leafNode "b") NodeList.nil))).showSidePanel = true :=
  ⟨by decide,
   (C7_node_click (AppState.mk chainDoc ∅ none false ∅)
      (MindmapNode.mk "a" "" "" "" none
        (NodeList.cons (leafNode "b") NodeList.nil))
      (by decide) (by decide)).2.2.1,
   (C7_node_click (AppState.mk chainDoc ∅ none false ∅)
      (MindmapNode.mk "a" "" "" "" none
        (NodeList.cons (leafNode "b") NodeList.nil))
      (by decide) (by decide)).2.2.2.1⟩

end MindmapUI
